import Mathlib

/-!
Verification of the Bundle Dependency Resolver & Transactional Splitter of
`fhir-loader/load_fhir.py` (with its orchestrating bundle processor).

The Python functions are shallowly embedded over a JSON value type.  Python
dynamic failures (`AttributeError`, `TypeError`, `ValueError`, ...) are
modelled by `Option`: a function that can raise returns `none` exactly on the
inputs where the Python code raises.  Functions that are total in Python
(pure structural recursion guarded by `isinstance` checks) are embedded as
total Lean functions.
-/

/-- JSON-shaped Python values (`None`, `bool`, `int`, `str`, `list`, `dict`).
Python dicts preserve insertion order, hence association lists. -/
inductive Json where
  | null
  | bool (b : Bool)
  | num (n : Int)
  | str (s : String)
  | arr (xs : List Json)
  | obj (kvs : List (String × Json))

/-! ## Python built-in semantics helpers -/

/-- First binding of a key in an association list (keys of parsed JSON
objects are unique, so first = only). -/
def jLookup (k : String) : List (String × Json) → Option Json
  | [] => none
  | (k', v) :: rest => if k' == k then some v else jLookup k rest

/-- Python `d.get(k, default)`: raises `AttributeError` (`none`) unless `d`
is a dict. -/
def pyGet (o : Json) (k : String) (default : Json) : Option Json :=
  match o with
  | .obj kvs => some ((jLookup k kvs).getD default)
  | _ => none

/-- Python `d[k] = v` on an association list: replace in place if the key
exists, else append (dicts keep insertion order and keep the position of an
overwritten key). -/
def dictSetKV : List (String × Json) → String → Json → List (String × Json)
  | [], k, v => [(k, v)]
  | (k', v') :: rest, k, v =>
      if k' == k then (k, v) :: rest else (k', v') :: dictSetKV rest k v

/-- Python `d[k] = v` on a dict.  On non-dicts the call sites below are
unreachable; the value is returned unchanged. -/
def dictSet (o : Json) (k : String) (v : Json) : Json :=
  match o with
  | .obj kvs => .obj (dictSetKV kvs k v)
  | _ => o

/-- Python iteration `for x in o`: lists yield elements, strings yield
1-character strings, dicts yield their keys; other values raise `TypeError`. -/
def pyIter (o : Json) : Option (List Json) :=
  match o with
  | .arr xs => some xs
  | .str s => some (s.data.map (fun c => .str (String.singleton c)))
  | .obj kvs => some (kvs.map (fun kv => .str kv.1))
  | _ => none

/-- Python `len(o)`: defined for lists, strings and dicts. -/
def pyLen (o : Json) : Option Nat :=
  match o with
  | .arr xs => some xs.length
  | .str s => some s.length
  | .obj kvs => some kvs.length
  | _ => none

/-- Python truthiness: `None`, `False`, `0`, `''`, `[]` and `` {} `` are falsy. -/
def pyTruthy (o : Json) : Bool :=
  match o with
  | .null => false
  | .bool b => b
  | .num n => n != 0
  | .str s => !s.isEmpty
  | .arr xs => !xs.isEmpty
  | .obj kvs => !kvs.isEmpty

/-- A string method applied to a non-`str` value raises `AttributeError`. -/
def asStr (o : Json) : Option String :=
  match o with
  | .str s => some s
  | _ => none

/-- Python `x == "lit"` where the right operand is a string literal:
equality across types is simply `False`. -/
def jsonEqStrLit (o : Json) (lit : String) : Bool :=
  match o with
  | .str s => s == lit
  | _ => false

/-- Python `x in l` for a list `l` of strings: `False` for non-`str` `x`. -/
def jsonMemStrList (o : Json) (l : List String) : Bool :=
  match o with
  | .str s => l.contains s
  | _ => false

/-- Python substring test `pat in s`. -/
def strContainsSub (s pat : String) : Bool :=
  (List.range (s.length + 1)).any (fun i => List.isPrefixOf pat.data (s.data.drop i))

/-- Python `s[-n:]` for `n > 0`: the last `n` characters (whole string when
shorter). -/
def takeRightStr (s : String) (n : Nat) : String :=
  ⟨s.data.drop (s.data.length - n)⟩

/-- Python `c in s` for a single character. -/
def strContainsChar (s : String) (c : Char) : Bool := s.data.contains c

/-- Python `s.startswith(pre)`. -/
def strStartsWith (s pre : String) : Bool := List.isPrefixOf pre.data s.data

/-- Fuel-driven splitter core (structural recursion on the fuel so that
closed calls reduce definitionally; the fuel is the input length, which the
wrapper supplies, and each step consumes at least one character). -/
def splitSepAux (s0 : Char) (srest : List Char) : Nat → List Char → List Char → List (List Char)
  | _, [], acc => [acc.reverse]
  | 0, _ :: _, acc => [acc.reverse]
  | fuel + 1, c :: rest, acc =>
      if List.isPrefixOf (s0 :: srest) (c :: rest) then
        acc.reverse :: splitSepAux s0 srest fuel (List.drop srest.length rest) []
      else splitSepAux s0 srest fuel rest (c :: acc)

/-- Python `s.split(sep)` for a non-empty separator (every call below
passes a non-empty literal). -/
def strSplitOn (s : String) (sep : String) : List String :=
  match sep.data with
  | [] => [s]
  | c :: cs => (splitSepAux c cs s.data.length s.data []).map String.mk

/-- Fuel-driven replacement core (fuel = input length, as above). -/
def replaceAux (p0 : Char) (prest : List Char) (rep : List Char) : Nat → List Char → List Char
  | _, [] => []
  | 0, l => l
  | fuel + 1, c :: rest =>
      if List.isPrefixOf (p0 :: prest) (c :: rest) then
        rep ++ replaceAux p0 prest rep fuel (List.drop prest.length rest)
      else c :: replaceAux p0 prest rep fuel rest

/-- Python `s.replace(pat, rep)` for a non-empty pattern (the only calls
below use the pattern `urn:uuid:`). -/
def strReplace (s pat rep : String) : String :=
  match pat.data with
  | [] => s
  | c :: cs => String.mk (replaceAux c cs rep.data s.data.length s.data)

/-- Python `s.lower()` (ASCII case mapping; no property below lower-cases
non-ASCII text). -/
def strToLower (s : String) : String := String.mk (s.data.map Char.toLower)

/-- Python `s.strip()` (whitespace per `Char.isWhitespace`). -/
def strTrim (s : String) : String :=
  String.mk (((s.data.dropWhile Char.isWhitespace).reverse.dropWhile
    Char.isWhitespace).reverse)

/-- `int()` of a run of decimal digits. -/
def digitsToNat (l : List Char) : Nat :=
  l.foldl (fun n c => 10 * n + (c.toNat - '0'.toNat)) 0

/-- `set.add` modelled as append-if-absent.  (CPython iterates sets in a
hash-dependent order; no property below depends on the iteration order, so
insertion order is used.) -/
def setAdd (l : List String) (x : String) : List String :=
  if l.contains x then l else l ++ [x]

mutual
/-- Python `repr` for JSON-shaped values, used by f-string interpolation of
containers.  String escaping inside `repr` is not modelled (no property
below interpolates a container or a quote-bearing string). -/
def pyRepr : Json → String
  | .null => "None"
  | .bool b => if b then "True" else "False"
  | .num n => toString n
  | .str s => "'" ++ s ++ "'"
  | .arr xs => "[" ++ pyReprL xs ++ "]"
  | .obj kvs => "\x7b" ++ pyReprKV kvs ++ "\x7d"

def pyReprL : List Json → String
  | [] => ""
  | [x] => pyRepr x
  | x :: xs => pyRepr x ++ ", " ++ pyReprL xs

def pyReprKV : List (String × Json) → String
  | [] => ""
  | [(k, v)] => "'" ++ k ++ "': " ++ pyRepr v
  | (k, v) :: rest => "'" ++ k ++ "': " ++ pyRepr v ++ ", " ++ pyReprKV rest
end

/-- Python `str(o)` as used by f-string interpolation. -/
def pyStr (o : Json) : String :=
  match o with
  | .str s => s
  | _ => pyRepr o

/-- Python `range(start, stop, step)` as a list; `step = 0` raises
`ValueError`. -/
def pythonRange (start stop step : Int) : Option (List Int) :=
  if step = 0 then none
  else if step > 0 then
    let cnt := ((stop - start).toNat + (step.toNat - 1)) / step.toNat
    some ((List.range cnt).map (fun (k : Nat) => start + step * (k : Int)))
  else
    let cnt := ((start - stop).toNat + ((-step).toNat - 1)) / (-step).toNat
    some ((List.range cnt).map (fun (k : Nat) => start + step * (k : Int)))

/-- Python list slice `l[a:b]` for the non-negative indices that occur below. -/
def pySlice (l : List Json) (a b : Int) : List Json :=
  (l.take b.toNat).drop a.toNat

/-! ## UTF-8 and MD5 (`hashlib.md5(...).hexdigest()`) -/

/-- UTF-8 encoding of one character (`str.encode()`). -/
def charUtf8 (c : Char) : List Nat :=
  let n := c.toNat
  if n < 0x80 then [n]
  else if n < 0x800 then [0xC0 ||| (n >>> 6), 0x80 ||| (n &&& 0x3F)]
  else if n < 0x10000 then
    [0xE0 ||| (n >>> 12), 0x80 ||| ((n >>> 6) &&& 0x3F), 0x80 ||| (n &&& 0x3F)]
  else
    [0xF0 ||| (n >>> 18), 0x80 ||| ((n >>> 12) &&& 0x3F),
     0x80 ||| ((n >>> 6) &&& 0x3F), 0x80 ||| (n &&& 0x3F)]

/-- UTF-8 bytes of a string. -/
def strUtf8 (s : String) : List Nat :=
  (s.data.map charUtf8).flatten

/-- The 64 MD5 sine-derived constants (RFC 1321). -/
def md5K : List Nat :=
  [0xd76aa478, 0xe8c7b756, 0x242070db, 0xc1bdceee,
   0xf57c0faf, 0x4787c62a, 0xa8304613, 0xfd469501,
   0x698098d8, 0x8b44f7af, 0xffff5bb1, 0x895cd7be,
   0x6b901122, 0xfd987193, 0xa679438e, 0x49b40821,
   0xf61e2562, 0xc040b340, 0x265e5a51, 0xe9b6c7aa,
   0xd62f105d, 0x02441453, 0xd8a1e681, 0xe7d3fbc8,
   0x21e1cde6, 0xc33707d6, 0xf4d50d87, 0x455a14ed,
   0xa9e3e905, 0xfcefa3f8, 0x676f02d9, 0x8d2a4c8a,
   0xfffa3942, 0x8771f681, 0x6d9d6122, 0xfde5380c,
   0xa4beea44, 0x4bdecfa9, 0xf6bb4b60, 0xbebfbc70,
   0x289b7ec6, 0xeaa127fa, 0xd4ef3085, 0x04881d05,
   0xd9d4d039, 0xe6db99e5, 0x1fa27cf8, 0xc4ac5665,
   0xf4292244, 0x432aff97, 0xab9423a7, 0xfc93a039,
   0x655b59c3, 0x8f0ccc92, 0xffeff47d, 0x85845dd1,
   0x6fa87e4f, 0xfe2ce6e0, 0xa3014314, 0x4e0811a1,
   0xf7537e82, 0xbd3af235, 0x2ad7d2bb, 0xeb86d391]

/-- The MD5 per-round left-rotation amounts. -/
def md5S : List Nat :=
  [7, 12, 17, 22, 7, 12, 17, 22, 7, 12, 17, 22, 7, 12, 17, 22,
   5, 9, 14, 20, 5, 9, 14, 20, 5, 9, 14, 20, 5, 9, 14, 20,
   4, 11, 16, 23, 4, 11, 16, 23, 4, 11, 16, 23, 4, 11, 16, 23,
   6, 10, 15, 21, 6, 10, 15, 21, 6, 10, 15, 21, 6, 10, 15, 21]

/-- 32-bit rotate left on `Nat` values below `2 ^ 32`. -/
def rotl32 (x c : Nat) : Nat :=
  (((x <<< c) % 4294967296) ||| (x >>> (32 - c)))

/-- One MD5 round applied to the state `(a, b, c, d)` with message block `blk`. -/
def md5Round (blk : List Nat) (st : Nat × Nat × Nat × Nat) (i : Nat) :
    Nat × Nat × Nat × Nat :=
  let (a, b, c, d) := st
  let (f, g) :=
    if i < 16 then ((b &&& c) ||| ((b ^^^ 0xffffffff) &&& d), i)
    else if i < 32 then ((d &&& b) ||| ((d ^^^ 0xffffffff) &&& c), (5 * i + 1) % 16)
    else if i < 48 then (b ^^^ c ^^^ d, (3 * i + 5) % 16)
    else (c ^^^ (b ||| (d ^^^ 0xffffffff)), (7 * i) % 16)
  let m := blk.getD (4 * g) 0 + 256 * blk.getD (4 * g + 1) 0 +
           65536 * blk.getD (4 * g + 2) 0 + 16777216 * blk.getD (4 * g + 3) 0
  let rot := rotl32 ((a + f + md5K.getD i 0 + m) % 4294967296) (md5S.getD i 7)
  (d, (b + rot) % 4294967296, b, c)

/-- Process one 64-byte block. -/
def md5Block (st : Nat × Nat × Nat × Nat) (blk : List Nat) : Nat × Nat × Nat × Nat :=
  let (a0, b0, c0, d0) := st
  let (a, b, c, d) := (List.range 64).foldl (md5Round blk) st
  ((a0 + a) % 4294967296, (b0 + b) % 4294967296,
   (c0 + c) % 4294967296, (d0 + d) % 4294967296)

/-- MD5 padding: `0x80`, zeros to 56 mod 64, then the bit length in 8
little-endian bytes. -/
def md5Pad (msg : List Nat) : List Nat :=
  let padlen := (119 - msg.length % 64) % 64
  let bitlen := (8 * msg.length) % (2 ^ 64)
  msg ++ [0x80] ++ List.replicate padlen 0 ++
    (List.range 8).map (fun i => (bitlen >>> (8 * i)) % 256)

/-- Little-endian lowercase hex of one 32-bit word (4 bytes, 8 digits). -/
def word32HexLE (w : Nat) : String :=
  let hexDigit := fun (n : Nat) => "0123456789abcdef".data.getD n '0'
  String.mk ((List.range 4).map (fun i =>
    [hexDigit ((w >>> (8 * i + 4)) % 16), hexDigit ((w >>> (8 * i)) % 16)])).flatten

/-- `hashlib.md5(s.encode()).hexdigest()`. -/
def md5Hex (s : String) : String :=
  let msg := md5Pad (strUtf8 s)
  let blocks := (List.range (msg.length / 64)).map (fun i => (msg.drop (64 * i)).take 64)
  let (a, b, c, d) := blocks.foldl md5Block (0x67452301, 0xefcdab89, 0x98badcfe, 0x10325476)
  word32HexLE a ++ word32HexLE b ++ word32HexLE c ++ word32HexLE d

/-- `f"{u[:8]}-{u[8:12]}-{u[12:16]}-{u[16:20]}-{u[20:32]}"`: dash-format a
32-hex-digit string as a UUID. -/
def uuidFormat (u : String) : String :=
  String.mk (u.data.take 8) ++ "-" ++ String.mk ((u.data.drop 8).take 4) ++ "-" ++
  String.mk ((u.data.drop 12).take 4) ++ "-" ++ String.mk ((u.data.drop 16).take 4) ++ "-" ++
  String.mk ((u.data.drop 20).take 12)

/-! ## Dates (`datetime.strptime(_, "%Y-%m-%d").date()`) -/

/-- A Python `datetime.date`; `calculate_age` additionally depends on
`date.today()`, passed in explicitly below. -/
structure PyDate where
  year : Nat
  month : Nat
  day : Nat
deriving DecidableEq

def isLeapYear (y : Nat) : Bool :=
  (y % 4 == 0 && y % 100 != 0) || (y % 400 == 0)

def daysInMonth (y m : Nat) : Nat :=
  if m == 2 then (if isLeapYear y then 29 else 28)
  else if m == 4 || m == 6 || m == 9 || m == 11 then 30
  else 31

/-- `strptime`'s `%Y`: exactly four decimal digits. -/
def parseYear (s : String) : Option Nat :=
  if s.length == 4 && s.data.all Char.isDigit then some (digitsToNat s.data) else none

/-- `strptime`'s `%m`: one or two digits with value 1-12. -/
def parseMonth (s : String) : Option Nat :=
  if 1 ≤ s.length && s.length ≤ 2 && s.data.all Char.isDigit then
    let m := digitsToNat s.data
    if 1 ≤ m && m ≤ 12 then some m else none
  else none

/-- `strptime`'s `%d`: one or two digits with value 1-31, or a space
followed by a non-zero digit. -/
def parseDay (s : String) : Option Nat :=
  if 1 ≤ s.length && s.length ≤ 2 && s.data.all Char.isDigit then
    let d := digitsToNat s.data
    if 1 ≤ d && d ≤ 31 then some d else none
  else
    match s.data with
    | [' ', c] => if '1' ≤ c && c ≤ '9' then some (c.toNat - '0'.toNat) else none
    | _ => none

/-- `datetime.strptime(s, "%Y-%m-%d").date()`: `none` when pattern matching
or the `date` range validation raises `ValueError` (`date` requires year ≥ 1
and a day that exists in the month). -/
def strptime_Ymd (s : String) : Option PyDate :=
  match strSplitOn s "-" with
  | [ys, ms, ds] => do
      let y ← parseYear ys
      let m ← parseMonth ms
      let d ← parseDay ds
      if 1 ≤ y && d ≤ daysInMonth y m then some ⟨y, m, d⟩ else none
  | _ => none

/-- `calculate_age` (load_fhir.py:161).  The bare `except:` turns every
parse failure (including `TypeError` for non-`str` arguments) into age `0`.
The tuple comparison `(today.month, today.day) < (m, d)` is lexicographic. -/
def calculate_age (today : PyDate) (birth_date_str : Json) : Int :=
  match birth_date_str with
  | .str s =>
      match strptime_Ymd s with
      | some b =>
          (today.year : Int) - (b.year : Int) -
            (if today.month < b.month ∨ (today.month = b.month ∧ today.day < b.day)
             then 1 else 0)
      | none => 0
  | _ => 0

/-- `is_pediatric` (load_fhir.py:172): under 21, `False` when `birthDate` is
absent or falsy. -/
def is_pediatric (today : PyDate) (patient : Json) : Option Bool := do
  let birth_date ← pyGet patient "birthDate" (.str "")
  if pyTruthy birth_date then pure (calculate_age today birth_date < 21)
  else pure false

/-! ## `urllib.parse.parse_qs` -/

def hexVal (c : Char) : Option Nat :=
  if '0' ≤ c ∧ c ≤ '9' then some (c.toNat - '0'.toNat)
  else if 'a' ≤ c ∧ c ≤ 'f' then some (c.toNat - 'a'.toNat + 10)
  else if 'A' ≤ c ∧ c ≤ 'F' then some (c.toNat - 'A'.toNat + 10)
  else none

/-- Scan `%XX` escapes: well-formed escapes become bytes, everything else
stays a literal character. -/
def pctScan : Nat → List Char → List (Sum Char Nat)
  | _, [] => []
  | 0, l => l.map Sum.inl
  | fuel + 1, '%' :: a :: b :: rest =>
      match hexVal a, hexVal b with
      | some ha, some hb => Sum.inr (16 * ha + hb) :: pctScan fuel rest
      | _, _ => Sum.inl '%' :: pctScan fuel (a :: b :: rest)
  | fuel + 1, c :: rest => Sum.inl c :: pctScan fuel rest

/-- Decode a UTF-8 byte run; invalid bytes are replaced by U+FFFD (CPython's
`errors="replace"`; replacement granularity for multi-byte garbage is
approximated as one replacement per offending byte).  Fuel = byte count,
supplied by the callers below. -/
def utf8DecodeBytes : Nat → List Nat → List Char
  | _, [] => []
  | 0, _ => []
  | fuel + 1, b :: rest =>
      if b < 0x80 then Char.ofNat b :: utf8DecodeBytes fuel rest
      else if 0xC2 ≤ b && b ≤ 0xDF then
        match rest with
        | b2 :: rest2 =>
            if 0x80 ≤ b2 && b2 ≤ 0xBF then
              Char.ofNat ((b - 0xC0) * 64 + (b2 - 0x80)) :: utf8DecodeBytes fuel rest2
            else '\uFFFD' :: utf8DecodeBytes fuel rest
        | [] => ['\uFFFD']
      else if 0xE0 ≤ b && b ≤ 0xEF then
        match rest with
        | b2 :: b3 :: rest3 =>
            if (0x80 ≤ b2 && b2 ≤ 0xBF) && (0x80 ≤ b3 && b3 ≤ 0xBF) &&
               !(b == 0xE0 && b2 < 0xA0) && !(b == 0xED && b2 ≥ 0xA0) then
              Char.ofNat ((b - 0xE0) * 4096 + (b2 - 0x80) * 64 + (b3 - 0x80)) ::
                utf8DecodeBytes fuel rest3
            else '\uFFFD' :: utf8DecodeBytes fuel rest
        | _ => '\uFFFD' :: utf8DecodeBytes fuel rest
      else if 0xF0 ≤ b && b ≤ 0xF4 then
        match rest with
        | b2 :: b3 :: b4 :: rest4 =>
            if (0x80 ≤ b2 && b2 ≤ 0xBF) && (0x80 ≤ b3 && b3 ≤ 0xBF) &&
               (0x80 ≤ b4 && b4 ≤ 0xBF) &&
               !(b == 0xF0 && b2 < 0x90) && !(b == 0xF4 && b2 ≥ 0x90) then
              Char.ofNat ((b - 0xF0) * 262144 + (b2 - 0x80) * 4096 +
                  (b3 - 0x80) * 64 + (b4 - 0x80)) :: utf8DecodeBytes fuel rest4
            else '\uFFFD' :: utf8DecodeBytes fuel rest
        | _ => '\uFFFD' :: utf8DecodeBytes fuel rest
      else '\uFFFD' :: utf8DecodeBytes fuel rest

/-- Render the scan result: maximal `%XX` runs are decoded as one UTF-8 byte
sequence, literals pass through. -/
def pctRender (acc : List Nat) : List (Sum Char Nat) → List Char
  | [] => utf8DecodeBytes acc.length acc.reverse
  | Sum.inl c :: rest => utf8DecodeBytes acc.length acc.reverse ++ c :: pctRender [] rest
  | Sum.inr b :: rest => pctRender (b :: acc) rest

/-- `urllib.parse.unquote_plus`: `+` becomes a space, then `%XX` escapes are
decoded. -/
def unquote_plus (s : String) : String :=
  String.mk (pctRender []
    (pctScan s.data.length (s.data.map (fun c => if c == '+' then ' ' else c))))

/-- One `k=v` segment of a query string, as `urllib.parse.parse_qsl` treats
it with default arguments: blank segments, segments without `=` and segments
with an empty value are all dropped. -/
def parseQsPair (seg : String) : Option (String × String) :=
  if seg.isEmpty then none
  else
    match strSplitOn seg "=" with
    | [_] => none
    | name :: rest =>
        let value := String.intercalate "=" rest
        if value.isEmpty then none
        else some (unquote_plus name, unquote_plus value)
    | [] => none

/-- `urllib.parse.parse_qs(qs).get(key, [''])[0]` (Python ≥ 3.10: segments
separated by `&` only): the first value bound to `key`, else `''`. -/
def parse_qs_first (qs : String) (key : String) : String :=
  match ((strSplitOn qs "&").filterMap parseQsPair).find? (fun p => p.1 == key) with
  | some p => p.2
  | none => ""


/-- Recursive `Option`-monadic map (easier to reason about than `List.mapM`). -/
def pyMapM (g : α → Option β) : List α → Option (List β)
  | [] => some []
  | x :: xs => do
      let y ← g x
      let ys ← pyMapM g xs
      pure (y :: ys)

/-- Recursive `Option`-monadic left fold. -/
def pyFoldlM (g : σ → α → Option σ) : σ → List α → Option σ
  | s, [] => some s
  | s, x :: xs => do
      let s' ← g s x
      pyFoldlM g s' xs

/-! ## Conditional references (load_fhir.py:469-495) -/

def isStrB (o : Json) : Bool :=
  match o with
  | .str _ => true
  | _ => false

def strOfD (o : Json) : String :=
  match o with
  | .str s => s
  | _ => ""

/-- `is_conditional_reference` (load_fhir.py:469): a `str` containing `?`. -/
def is_conditional_reference (ref : Json) : Bool :=
  match ref with
  | .str s => strContainsChar s '?'
  | _ => false

/-- `transform_urn_uuid_reference` (load_fhir.py:474): drop every
`urn:uuid:` occurrence from a string, pass anything else through. -/
def transform_urn_uuid_reference (ref : Json) : Json :=
  match ref with
  | .str s =>
      if strContainsSub s "urn:uuid:" then .str (strReplace s "urn:uuid:" "") else .str s
  | _ => ref

mutual
/-- `extract_conditional_refs_from_resource` (load_fhir.py:485): collect
every conditional string under a `reference` key into the accumulated set
(total: non-dict/list values are skipped). -/
def extract_conditional_refs_from_resource : Json → List String → List String
  | .obj kvs, refs => extractRefsKV kvs refs
  | .arr xs, refs => extractRefsL xs refs
  | _, refs => refs

def extractRefsKV : List (String × Json) → List String → List String
  | [], refs => refs
  | (key, value) :: rest, refs =>
      extractRefsKV rest
        (if key == "reference" && is_conditional_reference value then
          setAdd refs (strOfD value)
        else extract_conditional_refs_from_resource value refs)

def extractRefsL : List Json → List String → List String
  | [], refs => refs
  | x :: xs, refs => extractRefsL xs (extract_conditional_refs_from_resource x refs)
end

/-! ## Stub synthesizers (load_fhir.py:498-602) -/

/-- The deterministic id of a synthesized Practitioner:
`md5("practitioner-npi-" + npi)` dash-formatted as a UUID. -/
def practitioner_uuid (npi : String) : String :=
  uuidFormat (md5Hex ("practitioner-npi-" ++ npi))

/-- `create_practitioner_from_npi` (load_fhir.py:498). -/
def create_practitioner_from_npi (npi : String) : Json :=
  .obj [("resourceType", .str "Practitioner"),
        ("id", .str (practitioner_uuid npi)),
        ("identifier", .arr [.obj [("system", .str "http://hl7.org/fhir/sid/us-npi"),
                                   ("value", .str npi)]]),
        ("active", .bool true),
        ("name", .arr [.obj [("use", .str "official"),
                             ("family", .str ("Provider-" ++ takeRightStr npi 4)),
                             ("given", .arr [.str "Healthcare"])]])]

/-- Python `s.split(sep, 1)`. -/
def splitOnce (s : String) (sep : String) : List String :=
  match strSplitOn s sep with
  | [x] => [x]
  | x :: rest => [x, String.intercalate sep rest]
  | [] => []

/-- The deterministic id of a synthesized Location:
`md5("location-" + system + "-" + value)` dash-formatted as a UUID. -/
def location_uuid (system value : String) : String :=
  uuidFormat (md5Hex ("location-" ++ system ++ "-" ++ value))

/-- `create_location_from_ref` (load_fhir.py:525): `none` models `return None`. -/
def create_location_from_ref (location_ref : String) : Option Json :=
  if !(strContainsChar location_ref '?') then none
  else
    match splitOnce location_ref "?" with
    | [_, qs] =>
        let identifier_value := parse_qs_first qs "identifier"
        if identifier_value.isEmpty || !(strContainsChar identifier_value '|') then none
        else
          match splitOnce identifier_value "|" with
          | [system, value] =>
              some (.obj [("resourceType", .str "Location"),
                          ("id", .str (location_uuid system value)),
                          ("identifier", .arr [.obj [("system", .str system),
                                                     ("value", .str value)]]),
                          ("status", .str "active"),
                          ("name", .str ("Location " ++
                            (if value.length > 6 then takeRightStr value 6 else value)))])
          | _ => none
    | _ => none

/-- The deterministic id of a synthesized Organization. -/
def organization_uuid (system value : String) : String :=
  uuidFormat (md5Hex ("organization-" ++ system ++ "-" ++ value))

/-- `create_organization_from_ref` (load_fhir.py:565). -/
def create_organization_from_ref (org_ref : String) : Option Json :=
  if !(strContainsChar org_ref '?') then none
  else
    match splitOnce org_ref "?" with
    | [_, qs] =>
        let identifier_value := parse_qs_first qs "identifier"
        if identifier_value.isEmpty || !(strContainsChar identifier_value '|') then none
        else
          match splitOnce identifier_value "|" with
          | [system, value] =>
              some (.obj [("resourceType", .str "Organization"),
                          ("id", .str (organization_uuid system value)),
                          ("identifier", .arr [.obj [("system", .str system),
                                                     ("value", .str value)]]),
                          ("active", .bool true),
                          ("name", .str ("Organization " ++
                            (if value.length > 8 then takeRightStr value 8 else value)))])
          | _ => none
    | _ => none

/-! ## Stub injection (load_fhir.py:605-666) -/

/-- Python `d[k]` where the key is known present; `.null` stands for the
unreachable `KeyError`. -/
def subscriptD (o : Json) (k : String) : Json :=
  match o with
  | .obj kvs => (jLookup k kvs).getD .null
  | _ => .null

/-- The `if/elif` grouping loop of `inject_referenced_resources`
(load_fhir.py:623-631): NPIs of Practitioner references with the fixed
us-npi prefix, Location references, Organization references. -/
def groupConditionalRefs (refs : List String) : List String × List String × List String :=
  refs.foldl (fun acc ref =>
    let (npis, locs, orgs) := acc
    if strStartsWith ref "Practitioner?identifier=http://hl7.org/fhir/sid/us-npi|" then
      (setAdd npis ((strSplitOn ref "|").getLastD ""), locs, orgs)
    else if strStartsWith ref "Location?" then (npis, setAdd locs ref, orgs)
    else if strStartsWith ref "Organization?" then (npis, locs, setAdd orgs ref)
    else (npis, locs, orgs)) ([], [], [])

/-- `inject_referenced_resources` (load_fhir.py:605): synthesize stub
entries for the conditional references of the bundle and prepend them
(Organizations, then Practitioners, then Locations). -/
def inject_referenced_resources (bundle : Json) : Option Json := do
  let entriesJ ← pyGet bundle "entry" (.arr [])
  let entries ← pyIter entriesJ
  let conditional_refs ← pyFoldlM (fun refs entry => do
      let resource ← pyGet entry "resource" (.obj [])
      pure (extract_conditional_refs_from_resource resource refs)) [] entries
  let (practitioner_npis, location_refs, organization_refs) :=
    groupConditionalRefs conditional_refs
  let new_entries :=
    (organization_refs.filterMap (fun org_ref =>
      (create_organization_from_ref org_ref).map (fun org =>
        Json.obj [("fullUrl", .str ("urn:uuid:" ++ pyStr (subscriptD org "id"))),
                  ("resource", org)]))) ++
    (practitioner_npis.map (fun npi =>
      let practitioner := create_practitioner_from_npi npi
      Json.obj [("fullUrl", .str ("urn:uuid:" ++ pyStr (subscriptD practitioner "id"))),
                ("resource", practitioner)])) ++
    (location_refs.filterMap (fun loc_ref =>
      (create_location_from_ref loc_ref).map (fun location =>
        Json.obj [("fullUrl", .str ("urn:uuid:" ++ pyStr (subscriptD location "id"))),
                  ("resource", location)])))
  if new_entries.isEmpty then pure bundle
  else
    match entriesJ with
    | .arr xs => pure (dictSet bundle "entry" (.arr (new_entries ++ xs)))
    | _ => none

/-! ## Reference map builder (load_fhir.py:669-705) -/

/-- Last-write-wins association-list update for string maps (Python
`ref_map[k] = v`). -/
def dictUpdStr : List (String × String) → String → String → List (String × String)
  | [], k, v => [(k, v)]
  | (k', v') :: rest, k, v =>
      if k' == k then (k, v) :: rest else (k', v') :: dictUpdStr rest k v

/-- The body of `build_conditional_reference_map`'s entry loop
(load_fhir.py:678-703) for one entry. -/
def registerEntryIdentifiers (ref_map : List (String × String)) (entry : Json) :
    Option (List (String × String)) := do
  let resource ← pyGet entry "resource" (.obj [])
  let resource_typeJ ← pyGet resource "resourceType" (.str "")
  let full_urlJ ← pyGet entry "fullUrl" (.str "")
  let full_url ← asStr full_urlJ
  let resource_uuid ←
    if strStartsWith full_url "urn:uuid:" then
      pure (Json.str (strReplace full_url "urn:uuid:" ""))
    else if strContainsChar full_url '/' then
      pure (Json.str ((strSplitOn full_url "/").getLastD ""))
    else pyGet resource "id" (.str "")
  if !pyTruthy resource_uuid then pure ref_map
  else do
    let identifiersJ ← pyGet resource "identifier" (.arr [])
    let identifiers ← pyIter identifiersJ
    pyFoldlM (fun m identifier => do
      let systemJ ← pyGet identifier "system" (.str "")
      let valueJ ← pyGet identifier "value" (.str "")
      if pyTruthy systemJ && pyTruthy valueJ then
        pure (dictUpdStr m
          (pyStr resource_typeJ ++ "?identifier=" ++ pyStr systemJ ++ "|" ++ pyStr valueJ)
          (pyStr resource_typeJ ++ "/" ++ pyStr resource_uuid))
      else pure m) ref_map identifiers

/-- `build_conditional_reference_map` (load_fhir.py:669). -/
def build_conditional_reference_map (bundle : Json) :
    Option (List (String × String)) := do
  let entriesJ ← pyGet bundle "entry" (.arr [])
  let entries ← pyIter entriesJ
  pyFoldlM registerEntryIdentifiers [] entries

/-! ## Reference rewriters (load_fhir.py:708-742) -/

mutual
/-- `transform_conditional_to_direct` (load_fhir.py:708): substitute
conditional `reference` values through the map, keep unresolved ones, and
rebuild everything else structurally (total). -/
def transform_conditional_to_direct (obj : Json) (ref_map : List (String × String)) : Json :=
  match obj with
  | .obj kvs => .obj (tcdKV kvs ref_map)
  | .arr xs => .arr (tcdL xs ref_map)
  | _ => obj

def tcdKV : List (String × Json) → List (String × String) → List (String × Json)
  | [], _ => []
  | (key, value) :: rest, ref_map =>
      (key,
        if key == "reference" && is_conditional_reference value then
          .str ((List.lookup (strOfD value) ref_map).getD (strOfD value))
        else transform_conditional_to_direct value ref_map) :: tcdKV rest ref_map

def tcdL : List Json → List (String × String) → List Json
  | [], _ => []
  | x :: xs, ref_map =>
      transform_conditional_to_direct x ref_map :: tcdL xs ref_map
end

mutual
/-- `transform_references_in_resource` (load_fhir.py:729): normalize every
string-valued `reference` field through `transform_urn_uuid_reference`. -/
def transform_references_in_resource : Json → Json
  | .obj kvs => .obj (turKV kvs)
  | .arr xs => .arr (turL xs)
  | j => j

def turKV : List (String × Json) → List (String × Json)
  | [] => []
  | (key, value) :: rest =>
      (key,
        if key == "reference" && isStrB value then transform_urn_uuid_reference value
        else transform_references_in_resource value) :: turKV rest

def turL : List Json → List Json
  | [] => []
  | x :: xs => transform_references_in_resource x :: turL xs
end

/-! ## Entry orderer (load_fhir.py:760-783) -/

/-- The fixed precedence table (`type_order` in `reorder_bundle_entries`
and `split_bundle_entries`). -/
def type_order : List (String × Nat) :=
  [("Organization", 0), ("Practitioner", 1), ("PractitionerRole", 2),
   ("Location", 3), ("Patient", 4)]

/-- `get_order` (load_fhir.py:776): `type_order.get(resourceType, 99)`.
A list- or dict-valued `resourceType` is unhashable (`TypeError`); every
other non-string value hashes and misses the table. -/
def get_order (entry : Json) : Option Nat := do
  let resource ← pyGet entry "resource" (.obj [])
  let resource_typeJ ← pyGet resource "resourceType" (.str "")
  match resource_typeJ with
  | .str s => some ((List.lookup s type_order).getD 99)
  | .arr _ => none
  | .obj _ => none
  | _ => some 99

/-- Comparison of key-decorated elements: by the key only. -/
def pairLe (p q : Json × Nat) : Prop := p.2 ≤ q.2

instance : DecidableRel pairLe := fun p q => Nat.decLe p.2 q.2

instance : IsTotal (Json × Nat) pairLe := ⟨fun a b => Nat.le_total a.2 b.2⟩

instance : IsTrans (Json × Nat) pairLe := ⟨fun _ _ _ => Nat.le_trans⟩

/-- Stable sort of key-decorated elements (CPython's `sorted` is stable:
`orderedInsert` places an element before the equal-keyed elements of the
already-sorted suffix to its right). -/
def sortPairs (l : List (Json × Nat)) : List (Json × Nat) :=
  List.insertionSort pairLe l

/-- Python `sorted(l, key=key)`: the key is computed once per element (all
of them before comparison starts), then a stable sort runs on the keys. -/
def pySortedByKey (l : List Json) (key : Json → Option Nat) : Option (List Json) := do
  let pairs ← pyMapM (fun e => (key e).map (fun k => (e, k))) l
  pure ((sortPairs pairs).map Prod.fst)

/-- `reorder_bundle_entries` (load_fhir.py:760). -/
def reorder_bundle_entries (bundle : Json) : Option Json := do
  let entriesJ ← pyGet bundle "entry" (.arr [])
  let entries ← pyIter entriesJ
  let sorted_entries ← pySortedByKey entries get_order
  pure (dictSet bundle "entry" (.arr sorted_entries))

/-! ## Transactional splitter (load_fhir.py:786-821) -/

/-- A Python list comprehension with a possibly-raising predicate. -/
def pyFilterM (p : Json → Option Bool) : List Json → Option (List Json)
  | [] => some []
  | x :: xs => do
      let b ← p x
      let rest ← pyFilterM p xs
      pure (if b then x :: rest else rest)

/-- `split_bundle_entries` (load_fhir.py:786).  `bundle.get('type',
'transaction')` is evaluated inside the loop on an unchanging dict and is
hoisted here.  When `max_entries - len(foundational)` is zero the Python
`range` raises `ValueError` (`none`); when it is negative the `range` is
empty and an empty list of sub-bundles is returned. -/
def split_bundle_entries (bundle : Json) (max_entries : Nat := 400) :
    Option (List Json) := do
  let entriesJ ← pyGet bundle "entry" (.arr [])
  let n ← pyLen entriesJ
  if n ≤ max_entries then pure [bundle]
  else do
    let entries ← pyIter entriesJ
    let sorted_entries ← pySortedByKey entries get_order
    let foundational ← pyFilterM (fun e => (get_order e).map (fun k => decide (k < 99)))
      sorted_entries
    let other_entries ← pyFilterM (fun e => (get_order e).map (fun k => decide (k ≥ 99)))
      sorted_entries
    let bundle_type ← pyGet bundle "type" (.str "transaction")
    let step : Int := (max_entries : Int) - (foundational.length : Int)
    let idxs ← pythonRange 0 (max 1 (other_entries.length : Int)) step
    pure (idxs.map (fun i =>
      let chunk := pySlice other_entries i (i + step)
      Json.obj [("resourceType", .str "Bundle"),
                ("type", bundle_type),
                ("entry", .arr (if i == 0 then foundational ++ chunk else chunk))]))

/-! ## Eligibility classification (load_fhir.py:161-253) -/

/-- The prefix-matching loop `for qc in qualifying_icd10: if
code_value.startswith(qc)` — `startswith` on a non-`str` raises, but only
when the loop body runs at least once. -/
def prefix_match_any (code_value : Json) (qcs : List String) : Option Bool :=
  match qcs with
  | [] => some false
  | qc :: rest =>
      match code_value with
      | .str s => if strStartsWith s qc then some true else prefix_match_any code_value rest
      | _ => none

/-- One iteration of the coding loop of `has_qualifying_condition`
(load_fhir.py:203-221): SNOMED exact match, then ICD-10 prefix match, then
prefix match when no system is given. -/
def check_coding (qualifying_icd10 qualifying_snomed : List String) (coding : Json) :
    Option Bool := do
  let code_value ← pyGet coding "code" (.str "")
  let systemJ ← pyGet coding "system" (.str "")
  let system ← asStr systemJ
  if strContainsSub (strToLower system) "snomed" && jsonMemStrList code_value qualifying_snomed then
    pure true
  else do
    let icdHit ← if strContainsSub (strToLower system) "icd" then
        prefix_match_any code_value qualifying_icd10
      else pure false
    if icdHit then pure true
    else if system.isEmpty then prefix_match_any code_value qualifying_icd10
    else pure false

/-- Short-circuiting `return True` search over a list. -/
def anyM (p : Json → Option Bool) : List Json → Option Bool
  | [] => some false
  | x :: xs => do
      let b ← p x
      if b then pure true else anyM p xs

/-- The per-resource body of `has_qualifying_condition`: only `Condition`
resources are examined. -/
def resource_qualifies (qualifying_icd10 qualifying_snomed : List String)
    (resource : Json) : Option Bool := do
  let rt ← pyGet resource "resourceType" .null
  if jsonEqStrLit rt "Condition" then do
    let code ← pyGet resource "code" (.obj [])
    let codingJ ← pyGet code "coding" (.arr [])
    let codings ← pyIter codingJ
    anyM (check_coding qualifying_icd10 qualifying_snomed) codings
  else pure false

/-- `has_qualifying_condition` (load_fhir.py:180).  The qualifying code
lists come from the external `device_registry.json` configuration file
(lines 189-197) and are passed in as parameters. -/
def has_qualifying_condition (qualifying_icd10 qualifying_snomed : List String)
    (bundle : Json) : Option Bool := do
  let entriesJ ← pyGet bundle "entry" (.arr [])
  let entries ← pyIter entriesJ
  anyM (fun entry => do
    let resource ← pyGet entry "resource" (.obj [])
    resource_qualifies qualifying_icd10 qualifying_snomed resource) entries

/-- The entry loop of `get_patient_from_bundle` (load_fhir.py:225):
`some none` is Python's `return None` (no Patient found). -/
def findPatient : List Json → Option (Option Json)
  | [] => some none
  | entry :: rest => do
      let resource ← pyGet entry "resource" (.obj [])
      let rt ← pyGet resource "resourceType" .null
      if jsonEqStrLit rt "Patient" then pure (some resource) else findPatient rest

/-- `get_patient_from_bundle` (load_fhir.py:225): first Patient resource. -/
def get_patient_from_bundle (bundle : Json) : Option (Option Json) := do
  let entriesJ ← pyGet bundle "entry" (.arr [])
  let entries ← pyIter entriesJ
  findPatient entries

/-- Python `needle in container` for `str`/`list`/`dict` containers
(`TypeError` otherwise). -/
def pyInContainer (needle : String) (o : Json) : Option Bool :=
  match o with
  | .str s => some (strContainsSub s needle)
  | .arr xs => some (xs.any (fun x => jsonEqStrLit x needle))
  | .obj kvs => some (kvs.any (fun kv => kv.1 == needle))
  | _ => none

/-- The entry loop of `get_patient_managing_org` (load_fhir.py:234): the
first Encounter with a truthy `serviceProvider.reference` yields
`ref.split('/')[-1] if '/' in ref else ref`. -/
def findManagingOrg : List Json → Option (Option Json)
  | [] => some none
  | entry :: rest => do
      let resource ← pyGet entry "resource" (.obj [])
      let rt ← pyGet resource "resourceType" .null
      if jsonEqStrLit rt "Encounter" then do
        let service_provider ← pyGet resource "serviceProvider" (.obj [])
        let ref ← pyGet service_provider "reference" (.str "")
        if pyTruthy ref then do
          let hasSlash ← pyInContainer "/" ref
          if hasSlash then do
            let s ← asStr ref
            pure (some (Json.str ((strSplitOn s "/").getLastD "")))
          else pure (some ref)
        else findManagingOrg rest
      else findManagingOrg rest

/-- `get_patient_managing_org` (load_fhir.py:234). -/
def get_patient_managing_org (bundle : Json) : Option (Option Json) := do
  let entriesJ ← pyGet bundle "entry" (.arr [])
  let entries ← pyIter entriesJ
  findManagingOrg entries

/-- `CHOA_ORG_IDS` (load_fhir.py:44). -/
def CHOA_ORG_IDS : List String :=
  ["childrens-healthcare-atlanta", "choa-egleston", "choa-scottish-rite",
   "choa-hughes-spalding"]

/-- `is_choa_patient` (load_fhir.py:246): some CHOA id is a substring of
the lower-cased managing organization id. -/
def is_choa_patient (bundle : Json) : Option Bool := do
  let orgOpt ← get_patient_managing_org bundle
  match orgOpt with
  | none => pure false
  | some org_id =>
      if pyTruthy org_id then do
        let s ← asStr org_id
        pure (CHOA_ORG_IDS.any (fun choa_id => strContainsSub (strToLower s) choa_id))
      else pure false

/-! ## Bundle processor (load_fhir.py:824-932) -/

/-- One iteration of the entry-rewrite loop of `process_synthea_bundles`
(load_fhir.py:860-887): derive the final resource id from `fullUrl` (or the
declared id), write it into the resource, rewrite `urn:uuid:` and
conditional references, and attach the PUT request. -/
def rewrite_entry (ref_map : List (String × String)) (entry : Json) : Option Json := do
  let resource ← pyGet entry "resource" (.obj [])
  let resource_typeJ ← pyGet resource "resourceType" (.str "")
  let full_urlJ ← pyGet entry "fullUrl" (.str "")
  let full_url ← asStr full_urlJ
  let resource_id ←
    if strStartsWith full_url "urn:uuid:" then
      pure (Json.str (strReplace full_url "urn:uuid:" ""))
    else if strContainsChar full_url '/' then
      pure (Json.str ((strSplitOn full_url "/").getLastD ""))
    else pyGet resource "id" (.str "")
  let resource := if pyTruthy resource_id then dictSet resource "id" resource_id else resource
  let transformed :=
    transform_conditional_to_direct (transform_references_in_resource resource) ref_map
  let entry := dictSet entry "resource" transformed
  let url := if pyTruthy resource_id then pyStr resource_typeJ ++ "/" ++ pyStr resource_id
             else pyStr resource_typeJ
  pure (dictSet entry "request" (.obj [("method", .str "PUT"), ("url", .str url)]))

/-- Lines 849-887 of `process_synthea_bundles`: stub injection, reordering,
reference-map building, conversion to a transaction bundle and the per-entry
rewrite, i.e. everything between the eligibility gate and the split. -/
def pipeline_transform (bundle : Json) : Option Json := do
  let bundle ← inject_referenced_resources bundle
  let bundle ← reorder_bundle_entries bundle
  let ref_map ← build_conditional_reference_map bundle
  let bundle := dictSet bundle "type" (.str "transaction")
  let entriesJ ← pyGet bundle "entry" (.arr [])
  let entries ← pyIter entriesJ
  let rewritten ← pyMapM (rewrite_entry ref_map) entries
  pure (dictSet bundle "entry" (.arr rewritten))

/-- Python `x[0]` (`IndexError`/`KeyError`/`TypeError` are `none`). -/
def pyIndexZero (o : Json) : Option Json :=
  match o with
  | .arr (x :: _) => some x
  | .arr [] => none
  | .str s => match s.data with
      | c :: _ => some (.str (String.singleton c))
      | [] => none
  | _ => none

/-- Python `sep.join(x)`: a list must contain only strings; a string joins
its characters; a dict joins its keys. -/
def pyJoinList (sep : String) (o : Json) : Option String :=
  match o with
  | .arr xs => (pyMapM asStr xs).map (String.intercalate sep)
  | .str s => some (String.intercalate sep (s.data.map String.singleton))
  | .obj kvs => some (String.intercalate sep (kvs.map (fun kv => kv.1)))
  | _ => none

/-- The name-extraction block of the qualifying-patient record
(load_fhir.py:901-907).  (`str.strip()` is modelled by `strTrim`.) -/
def extract_patient_name (patient : Json) : Option String := do
  let names ← pyGet patient "name" (.arr [])
  if pyTruthy names then do
    let name ← pyIndexZero names
    let givenJ ← pyGet name "given" (.arr [])
    let given ← pyJoinList " " givenJ
    let familyJ ← pyGet name "family" (.str "")
    pure (strTrim (given ++ " " ++ pyStr familyJ))
  else pure ""

/-- A qualifying-patient record (load_fhir.py:910-915).  The record's `id`
field is the patient resource's id as mutated in place by the rewrite loop;
it is aliasing-dependent and no claim depends on it, so it is omitted. -/
structure QPatient where
  name : String
  birthDate : Json
  isPediatric : Bool

/-- The configuration the processor reads from its environment: the
qualifying code lists of `device_registry.json`, `DEVICE_COUNT`,
`date.today()`, and the external FHIR submission collaborator
(`client.post_bundle` succeeding or raising, as a predicate on the
submitted sub-bundle). -/
structure LoaderConfig where
  qualifying_icd10 : List String
  qualifying_snomed : List String
  device_count : Nat
  today : PyDate
  submitOk : Json → Bool

/-- The mutable counters of `process_synthea_bundles` (load_fhir.py:828-832). -/
structure RunState where
  qualifying_patients : List QPatient
  uploaded_count : Nat
  skipped_choa_adult : Nat
  processed_count : Nat
  bundle_splits : Nat

def initialRunState : RunState := ⟨[], 0, 0, 0, 0⟩

/-- What one iteration of the bundle loop reports: `errored` is the
`except` branch (the error is printed and the loop continues). -/
inductive BundleOutcome where
  | errored
  | noPatient
  | choaSkipped
  | uploaded (qualifies : Bool) (added : Bool)
deriving DecidableEq

/-- One iteration of the bundle loop of `process_synthea_bundles`
(load_fhir.py:836-922), `try` body and `except` branch.  State updates that
happen before an exception are kept, as in Python. -/
def process_one (cfg : LoaderConfig) (st : RunState) (bundle : Json) :
    RunState × BundleOutcome :=
  match get_patient_from_bundle bundle with
  | none => (st, .errored)
  | some none => (st, .noPatient)
  | some (some patient) =>
    match is_choa_patient bundle with
    | none => (st, .errored)
    | some choa =>
      match (if choa then (is_pediatric cfg.today patient).map (fun p => !p)
             else some false) with
      | none => (st, .errored)
      | some skip =>
        if skip then
          ({st with skipped_choa_adult := st.skipped_choa_adult + 1}, .choaSkipped)
        else
          match pipeline_transform bundle with
          | none => (st, .errored)
          | some tbundle =>
            match split_bundle_entries tbundle 400 with
            | none => (st, .errored)
            | some sub_bundles =>
              let st := if sub_bundles.length > 1 then
                  {st with bundle_splits := st.bundle_splits + 1} else st
              if sub_bundles.all cfg.submitOk then
                let st := {st with uploaded_count := st.uploaded_count + 1}
                match has_qualifying_condition cfg.qualifying_icd10
                    cfg.qualifying_snomed tbundle with
                | none => (st, .errored)
                | some qualifies =>
                  if qualifies && st.qualifying_patients.length < cfg.device_count then
                    match extract_patient_name patient,
                          pyGet patient "birthDate" (.str ""),
                          is_pediatric cfg.today patient with
                    | some nm, some bd, some ped =>
                        ({st with
                            qualifying_patients := st.qualifying_patients ++ [⟨nm, bd, ped⟩],
                            processed_count := st.processed_count + 1},
                         .uploaded qualifies true)
                    | _, _, _ => (st, .errored)
                  else
                    ({st with processed_count := st.processed_count + 1},
                     .uploaded qualifies false)
              else (st, .errored)

/-- The bundle loop of `process_synthea_bundles` (load_fhir.py:835-925)
over the flattened input stream (batching only bounds memory).  The second
component records, for verification, each iteration's outcome. -/
def process_synthea_bundles (cfg : LoaderConfig) :
    List Json → RunState → RunState × List BundleOutcome
  | [], st => (st, [])
  | bundle :: rest, st =>
      let (st', o) := process_one cfg st bundle
      let (stf, os) := process_synthea_bundles cfg rest st'
      (stf, o :: os)

/-! ## Shared concrete example data -/

/-- A minimal entry whose resource has only a kind. -/
def exEntry (rt : String) : Json :=
  .obj [("resource", .obj [("resourceType", Json.str rt)])]

/-- A minimal bundle around a list of entries. -/
def exBundle (es : List Json) : Json :=
  .obj [("resourceType", .str "Bundle"), ("entry", .arr es)]

/-- Entries of listed (foundational) kind, as the splitter classifies them. -/
def isFoundationalD (e : Json) : Bool :=
  ((get_order e).getD 99) < 99

/-! ## Claim theorems -/

/-- C1: the claim states that when a bundle has more than `L` entries and
at least `L` foundational entries, `split_bundle_entries` returns a
non-empty sequence whose first sub-bundle carries all foundational entries
and drops nothing.  In fact the chunking stride `max_entries -
len(foundational)` is then ≤ 0: a negative stride makes `range` empty, so
the function returns an empty list (every entry dropped), and a zero
stride makes `range` raise `ValueError`.  This closed theorem evaluates
both failure shapes of the code at the claim's hypotheses. -/
theorem C1_split_foundational_overflow_drops_everything :
    (let b := exBundle [exEntry "Patient", exEntry "Patient"]
     [exEntry "Patient", exEntry "Patient"].length > 1 ∧
     ([exEntry "Patient", exEntry "Patient"].filter isFoundationalD).length ≥ 1 ∧
     split_bundle_entries b 1 = some []) ∧
    (let b := exBundle [exEntry "Patient", exEntry "Patient", exEntry "Observation"]
     split_bundle_entries b 2 = none) :=
  ⟨⟨by decide, by decide, rfl⟩, rfl⟩

/-- C9: the bundle loop never aborts: the outcome list of a concatenated
stream is the concatenation of the outcome lists (the second part starting
from the state the first part left), one outcome per input bundle —
whatever those outcomes (including `errored`, the caught-exception branch)
were. -/
theorem C9_bundle_failure_does_not_abort_stream (cfg : LoaderConfig)
    (bs₁ bs₂ : List Json) (st : RunState) :
    (process_synthea_bundles cfg (bs₁ ++ bs₂) st).2 =
      (process_synthea_bundles cfg bs₁ st).2 ++
        (process_synthea_bundles cfg bs₂ (process_synthea_bundles cfg bs₁ st).1).2 ∧
    (process_synthea_bundles cfg bs₁ st).2.length = bs₁.length := by
  induction bs₁ generalizing st with
  | nil => simp [process_synthea_bundles]
  | cons b rest ih =>
      simp only [List.cons_append, process_synthea_bundles]
      constructor
      · simp [(ih (process_one cfg st b).1).1]
      · simp [(ih (process_one cfg st b).1).2]

/-- C5: stub identities are stable hashes of fixed strings built from the
target kind and identifier: a synthesized Practitioner's id is the
dash-formatted `md5("practitioner-npi-" + npi)` and it carries the
`(us-npi, npi)` identifier; a synthesized Location's id is the
dash-formatted `md5("location-" + system + "-" + value)` for the identifier
pair parsed from the conditional reference, which the stub carries.  Both
are pure functions of the reference content, so identical input yields an
identical id in any bundle or run. -/
theorem C5_stub_ids_deterministic :
    (∀ npi : String,
      subscriptD (create_practitioner_from_npi npi) "id" =
        .str (uuidFormat (md5Hex ("practitioner-npi-" ++ npi))) ∧
      subscriptD (create_practitioner_from_npi npi) "identifier" =
        .arr [.obj [("system", .str "http://hl7.org/fhir/sid/us-npi"),
                    ("value", .str npi)]]) ∧
    (∀ (ref : String) (loc : Json), create_location_from_ref ref = some loc →
      ∃ system value,
        subscriptD loc "id" =
          .str (uuidFormat (md5Hex ("location-" ++ system ++ "-" ++ value))) ∧
        subscriptD loc "identifier" =
          .arr [.obj [("system", .str system), ("value", .str value)]]) := by
  constructor
  · intro npi
    constructor <;> simp [create_practitioner_from_npi, practitioner_uuid,
      subscriptD, jLookup]
  · intro ref loc h
    unfold create_location_from_ref at h
    split at h
    · exact absurd h (by simp)
    · split at h
      · dsimp only at h
        split at h
        · exact absurd h (by simp)
        · split at h
          · rename_i system value _
            refine ⟨system, value, ?_, ?_⟩ <;>
              (cases h; simp [subscriptD, jLookup, location_uuid])
          · exact absurd h (by simp)
      · exact absurd h (by simp)

/-- C5 witness: the theorem applied to the reference
`Location?identifier=sys|val` and the stub it synthesizes. -/
theorem C5_stub_ids_deterministic_witness :
    ∃ system value,
      subscriptD ((create_location_from_ref "Location?identifier=sys|val").getD .null)
          "id" =
        .str (uuidFormat (md5Hex ("location-" ++ system ++ "-" ++ value))) ∧
      subscriptD ((create_location_from_ref "Location?identifier=sys|val").getD .null)
          "identifier" =
        .arr [.obj [("system", .str system), ("value", .str value)]] :=
  C5_stub_ids_deterministic.2 "Location?identifier=sys|val" _ rfl

/-- C10: a present but unparseable `birthDate` gives age 0, hence a
pediatric classification, while an absent or empty one gives a
non-pediatric classification; consequently at the CHOA gate of the
processor a CHOA patient with a pediatric classification is never skipped
there while a non-pediatric one always is. -/
theorem C10_malformed_birthdate_pediatric :
    (∀ (today : PyDate) (patient : Json) (bd : String),
      pyGet patient "birthDate" (.str "") = some (.str bd) →
      bd ≠ "" → strptime_Ymd bd = none →
      calculate_age today (.str bd) = 0 ∧ is_pediatric today patient = some true) ∧
    (∀ (today : PyDate) (patient : Json),
      pyGet patient "birthDate" (.str "") = some (.str "") →
      is_pediatric today patient = some false) ∧
    (∀ (cfg : LoaderConfig) (st : RunState) (b : Json) (p : Json),
      get_patient_from_bundle b = some (some p) →
      is_choa_patient b = some true →
      (is_pediatric cfg.today p = some true →
        (process_one cfg st b).2 ≠ BundleOutcome.choaSkipped) ∧
      (is_pediatric cfg.today p = some false →
        (process_one cfg st b).2 = BundleOutcome.choaSkipped)) := by
  refine ⟨?_, ?_, ?_⟩
  · intro today patient bd h hne hparse
    have hbd : bd.isEmpty = false := by
      cases hbdE : bd.isEmpty
      · rfl
      · exact absurd ((String.isEmpty_iff bd).mp hbdE) hne
    have hage : calculate_age today (.str bd) = 0 := by
      simp [calculate_age, hparse]
    exact ⟨hage, by simp [is_pediatric, h, pyTruthy, hbd, hage]⟩
  · intro today patient h
    simp [is_pediatric, h, pyTruthy, show "".isEmpty = true from rfl]
  · intro cfg st b p hpat hchoa
    constructor
    · intro hped
      simp only [process_one, hpat, hchoa, hped, Option.map_some', Bool.not_true,
        if_true]
      split <;> simp_all <;> (repeat' split) <;> simp_all
    · intro hped
      simp [process_one, hpat, hchoa, hped]

/-- C10 witness: a CHOA bundle whose patient has the unparseable birth date
`not-a-date` is classified pediatric and passes the CHOA gate. -/
theorem C10_malformed_birthdate_pediatric_witness :
    calculate_age ⟨2026, 10, 12⟩ (.str "not-a-date") = 0 ∧
    is_pediatric ⟨2026, 10, 12⟩
      (.obj [("resourceType", .str "Patient"), ("birthDate", .str "not-a-date")]) =
      some true ∧
    (process_one
        ⟨[], [], 100, ⟨2026, 10, 12⟩, fun _ => true⟩
        initialRunState
        (exBundle
          [.obj [("resource", .obj [("resourceType", .str "Encounter"),
             ("serviceProvider", .obj [("reference", .str "Organization/choa-egleston")])])],
           .obj [("resource", .obj [("resourceType", .str "Patient"),
             ("birthDate", .str "not-a-date")])]])).2 ≠ BundleOutcome.choaSkipped := by
  refine ⟨?_, ?_, ?_⟩
  · exact (C10_malformed_birthdate_pediatric.1 ⟨2026, 10, 12⟩
      (.obj [("resourceType", .str "Patient"), ("birthDate", .str "not-a-date")])
      "not-a-date" rfl (by decide) rfl).1
  · exact (C10_malformed_birthdate_pediatric.1 ⟨2026, 10, 12⟩
      (.obj [("resourceType", .str "Patient"), ("birthDate", .str "not-a-date")])
      "not-a-date" rfl (by decide) rfl).2
  · exact ((C10_malformed_birthdate_pediatric.2.2
      ⟨[], [], 100, ⟨2026, 10, 12⟩, fun _ => true⟩ initialRunState
      (exBundle
        [.obj [("resource", .obj [("resourceType", .str "Encounter"),
           ("serviceProvider", .obj [("reference", .str "Organization/choa-egleston")])])],
         .obj [("resource", .obj [("resourceType", .str "Patient"),
           ("birthDate", .str "not-a-date")])]])
      (.obj [("resourceType", .str "Patient"), ("birthDate", .str "not-a-date")])
      rfl rfl).1
      ((C10_malformed_birthdate_pediatric.1 ⟨2026, 10, 12⟩
        (.obj [("resourceType", .str "Patient"), ("birthDate", .str "not-a-date")])
        "not-a-date" rfl (by decide) rfl).2))

/-! ## Sorting lemmas -/

/-- Decorating a list with its keys: the elements are unchanged and each
pair carries its element's key. -/
theorem pyMapM_decorate (key : Json → Option Nat) :
    ∀ (es : List Json) (pairs : List (Json × Nat)),
      pyMapM (fun e => (key e).map (fun k => (e, k))) es = some pairs →
      pairs.map Prod.fst = es ∧ ∀ p ∈ pairs, key p.1 = some p.2 := by
  intro es
  induction es with
  | nil => intro pairs h; cases h; simp
  | cons e es ih =>
      intro pairs h
      simp only [pyMapM] at h
      cases hk : key e with
      | none => rw [hk] at h; simp at h
      | some k =>
          rw [hk] at h
          simp only [Option.bind_eq_bind, Option.map_some', Option.some_bind] at h
          cases hrest : pyMapM (fun e => (key e).map (fun k => (e, k))) es with
          | none => rw [hrest] at h; simp at h
          | some ps =>
              rw [hrest] at h
              simp only [Option.bind_eq_bind, Option.some_bind, Option.pure_def,
                Option.some.injEq] at h
              subst h
              obtain ⟨h1, h2⟩ := ih ps hrest
              refine ⟨by simp [h1], ?_⟩
              intro p hp
              rcases List.mem_cons.mp hp with h | h
              · subst h; exact hk
              · exact h2 p h

/-- Filtering for one key value commutes with `orderedInsert`: the elements
skipped over all have strictly smaller keys. -/
theorem orderedInsert_filter_key (a : Json × Nat) (v : Nat) :
    ∀ l : List (Json × Nat),
      (List.orderedInsert pairLe a l).filter (fun p => decide (p.2 = v)) =
        if a.2 = v then a :: l.filter (fun p => decide (p.2 = v))
        else l.filter (fun p => decide (p.2 = v)) := by
  intro l
  induction l with
  | nil => by_cases hav : a.2 = v <;> simp [List.orderedInsert, List.filter, hav]
  | cons b l ih =>
      by_cases hab : pairLe a b
      · rw [List.orderedInsert, if_pos hab]
        by_cases hav : a.2 = v <;> simp [List.filter, hav]
      · rw [List.orderedInsert, if_neg hab]
        have hbv : b.2 = v → a.2 ≠ v := by
          intro hb ha
          exact hab (le_of_eq (ha.trans hb.symm))
        by_cases hb : b.2 = v
        · have hav := hbv hb
          simp [List.filter, hb, hav, ih]
        · by_cases hav : a.2 = v <;> simp [List.filter, hb, hav, ih]

/-- Stability of the sort: the sub-sequence of entries with any fixed key
is preserved. -/
theorem sortPairs_filter_key (v : Nat) :
    ∀ l : List (Json × Nat),
      (sortPairs l).filter (fun p => decide (p.2 = v)) =
        l.filter (fun p => decide (p.2 = v)) := by
  intro l
  induction l with
  | nil => rfl
  | cons a l ih =>
      show (List.orderedInsert pairLe a (sortPairs l)).filter _ = _
      rw [orderedInsert_filter_key]
      by_cases hav : a.2 = v <;> simp [List.filter, hav, ih]

/-- `sorted(l, key=key)`: permutation of the input, keys weakly increasing
along the output, per-key sub-sequences (stability) preserved, and every
output element has a defined key. -/
theorem pySortedByKey_spec (key : Json → Option Nat) (es ss : List Json)
    (h : pySortedByKey es key = some ss) :
    ss.Perm es ∧
    (∀ v : Nat, ss.filter (fun e => decide (key e = some v)) =
      es.filter (fun e => decide (key e = some v))) ∧
    List.Pairwise (fun a b => ∀ ka kb, key a = some ka → key b = some kb → ka ≤ kb) ss ∧
    (∀ e ∈ ss, ∃ k, key e = some k) := by
  simp only [pySortedByKey] at h
  cases hp : pyMapM (fun e => (key e).map (fun k => (e, k))) es with
  | none => rw [hp] at h; simp at h
  | some pairs =>
      rw [hp] at h
      simp only [Option.bind_eq_bind, Option.some_bind, Option.pure_def,
        Option.some.injEq] at h
      obtain ⟨hfst, hkey⟩ := pyMapM_decorate key es pairs hp
      have hperm : (sortPairs pairs).Perm pairs := List.perm_insertionSort pairLe pairs
      have hkey' : ∀ p ∈ sortPairs pairs, key p.1 = some p.2 := by
        intro p hp'
        exact hkey p (hperm.mem_iff.mp hp')
      constructor
      · rw [← h, ← hfst]
        exact hperm.map Prod.fst
      constructor
      · intro v
        rw [← h, ← hfst]
        rw [List.filter_map, List.filter_map]
        have h1 : (sortPairs pairs).filter
            ((fun e => decide (key e = some v)) ∘ Prod.fst) =
            (sortPairs pairs).filter (fun p => decide (p.2 = v)) := by
          apply List.filter_congr
          intro p hp'
          simp [Function.comp, hkey' p hp']
        have h2 : pairs.filter ((fun e => decide (key e = some v)) ∘ Prod.fst) =
            pairs.filter (fun p => decide (p.2 = v)) := by
          apply List.filter_congr
          intro p hp'
          simp [Function.comp, hkey p hp']
        rw [h1, h2, sortPairs_filter_key]
      constructor
      · rw [← h]
        rw [List.pairwise_map]
        have hs : List.Pairwise pairLe (sortPairs pairs) :=
          List.sorted_insertionSort pairLe pairs
        refine List.Pairwise.imp_of_mem ?_ hs
        intro a b ha hb hle ka kb hka hkb
        rw [hkey' a ha] at hka
        rw [hkey' b hb] at hkb
        cases hka; cases hkb
        exact hle
      · intro e he
        rw [← h] at he
        obtain ⟨p, hp', rfl⟩ := List.mem_map.mp he
        exact ⟨p.2, hkey' p hp'⟩

/-- Every defined precedence is a table value (≤ 4) or the default 99, so
unlisted kinds sort after all listed kinds. -/
theorem get_order_range (e : Json) (k : Nat) (h : get_order e = some k) :
    k ≤ 4 ∨ k = 99 := by
  simp only [get_order, Option.bind_eq_bind] at h
  cases hg : pyGet e "resource" (.obj []) with
  | none => rw [hg] at h; simp at h
  | some resource =>
      rw [hg] at h
      simp only [Option.some_bind] at h
      cases ht : pyGet resource "resourceType" (.str "") with
      | none => rw [ht] at h; simp at h
      | some rt =>
          rw [ht] at h
          simp only [Option.some_bind] at h
          cases rt with
          | str s =>
              simp only [Option.some.injEq] at h
              rw [← h]
              simp only [type_order, List.lookup]
              repeat' split
              all_goals simp
          | arr xs => simp at h
          | obj kvs => simp at h
          | null => simp only [Option.some.injEq] at h; omega
          | bool b => simp only [Option.some.injEq] at h; omega
          | num n => simp only [Option.some.injEq] at h; omega

/-- The entry list a bundle's `entry` value iterates to (shared projection
for the statements below). -/
def bundleEntryList (b : Json) : Option (List Json) := do
  pyIter (← pyGet b "entry" (.arr []))

/-- C7: the Entry Orderer is a stable sort by the fixed kind precedence:
when it succeeds it replaces the entry list by a permutation along which
the `get_order` precedences (Organization 0, Practitioner 1,
PractitionerRole 2, Location 3, Patient 4, everything else 99) are weakly
increasing — so no entry precedes one of strictly smaller precedence — and
the sub-sequence of entries of each fixed precedence (in particular the
unlisted kinds, all mapped to 99) keeps its input order. -/
theorem C7_reorder_is_stable_precedence_sort (bundle b' : Json)
    (h : reorder_bundle_entries bundle = some b') :
    ∃ es ss, bundleEntryList bundle = some es ∧
      b' = dictSet bundle "entry" (.arr ss) ∧
      ss.Perm es ∧
      List.Pairwise (fun a b => ∀ ka kb, get_order a = some ka →
        get_order b = some kb → ka ≤ kb) ss ∧
      (∀ v : Nat, ss.filter (fun e => decide (get_order e = some v)) =
        es.filter (fun e => decide (get_order e = some v))) ∧
      (∀ e ∈ ss, ∃ k, get_order e = some k ∧ (k ≤ 4 ∨ k = 99)) := by
  simp only [reorder_bundle_entries, Option.bind_eq_bind] at h
  cases hg : pyGet bundle "entry" (.arr []) with
  | none => rw [hg] at h; simp at h
  | some ej =>
      rw [hg] at h
      simp only [Option.some_bind] at h
      cases hi : pyIter ej with
      | none => rw [hi] at h; simp at h
      | some es =>
          rw [hi] at h
          simp only [Option.some_bind] at h
          cases hs : pySortedByKey es get_order with
          | none => rw [hs] at h; simp at h
          | some ss =>
              rw [hs] at h
              simp only [Option.some_bind, Option.pure_def, Option.some.injEq] at h
              obtain ⟨hperm, hstable, hsorted, hdef⟩ :=
                pySortedByKey_spec get_order es ss hs
              refine ⟨es, ss, ?_, h.symm, hperm, hsorted, hstable, ?_⟩
              · simp [bundleEntryList, hg, hi]
              · intro e he
                obtain ⟨k, hk⟩ := hdef e he
                exact ⟨k, hk, get_order_range e k hk⟩

/-- C7 witness: the theorem applied to a concrete three-entry bundle. -/
theorem C7_reorder_is_stable_precedence_sort_witness :
    ∃ es ss,
      bundleEntryList (exBundle [exEntry "Observation", exEntry "Patient",
        exEntry "Organization"]) = some es ∧
      (reorder_bundle_entries (exBundle [exEntry "Observation", exEntry "Patient",
          exEntry "Organization"])).getD .null =
        dictSet (exBundle [exEntry "Observation", exEntry "Patient",
          exEntry "Organization"]) "entry" (.arr ss) ∧
      ss.Perm es ∧
      List.Pairwise (fun a b => ∀ ka kb, get_order a = some ka →
        get_order b = some kb → ka ≤ kb) ss ∧
      (∀ v : Nat, ss.filter (fun e => decide (get_order e = some v)) =
        es.filter (fun e => decide (get_order e = some v))) ∧
      (∀ e ∈ ss, ∃ k, get_order e = some k ∧ (k ≤ 4 ∨ k = 99)) :=
  C7_reorder_is_stable_precedence_sort _ _ rfl

/-! ## Splitter lemmas -/

/-- `len(o)` agrees with the length of the iteration of `o`. -/
theorem pyLen_pyIter (o : Json) (n : Nat) (l : List Json)
    (hn : pyLen o = some n) (hl : pyIter o = some l) : l.length = n := by
  cases o with
  | arr xs => simp_all [pyLen, pyIter]
  | str s =>
      simp only [pyLen, Option.some.injEq] at hn
      simp only [pyIter, Option.some.injEq] at hl
      subst hl; subst hn
      simp only [List.length_map]
      rfl
  | obj kvs =>
      simp only [pyLen, Option.some.injEq] at hn
      simp only [pyIter, Option.some.injEq] at hl
      subst hl; subst hn
      simp
  | null => simp_all [pyLen]
  | bool b => simp_all [pyLen]
  | num m => simp_all [pyLen]

/-- When every element's key is defined, the raising comprehension is the
plain filter over the defaulted key. -/
theorem pyFilterM_defined (p : Nat → Bool) :
    ∀ l : List Json, (∀ e ∈ l, ∃ k, get_order e = some k) →
      pyFilterM (fun e => (get_order e).map p) l =
        some (l.filter (fun e => p ((get_order e).getD 99))) := by
  intro l
  induction l with
  | nil => intro _; rfl
  | cons e l ih =>
      intro hdef
      obtain ⟨k, hk⟩ := hdef e (List.mem_cons_self e l)
      simp only [pyFilterM, hk, Option.bind_eq_bind, Option.map_some', Option.some_bind,
        ih (fun x hx => hdef x (List.mem_cons_of_mem e hx)), Option.pure_def,
        List.filter_cons, Option.getD_some]

/-- Covering chunks of stride `s` concatenate back to the original list. -/
theorem chunk_flatten (s : Nat) (hs : 0 < s) :
    ∀ (cnt : Nat) (l : List Json), l.length ≤ cnt * s →
      ((List.range cnt).map (fun k => (l.drop (k * s)).take s)).flatten = l := by
  intro cnt
  induction cnt with
  | zero =>
      intro l hl
      simp at hl
      simp [hl]
  | succ cnt ih =>
      intro l hl
      rw [List.range_succ_eq_map]
      simp only [List.map_cons, List.map_map, List.flatten_cons, Nat.zero_mul,
        List.drop_zero]
      have hcomp : ∀ k : Nat, ((l.drop ((k + 1) * s)).take s) =
          (((l.drop s).drop (k * s)).take s) := by
        intro k
        rw [List.drop_drop]
        congr 1
        ring
      have : (List.map (fun k => (l.drop ((k.succ) * s)).take s) (List.range cnt)) =
          (List.range cnt).map (fun k => (((l.drop s).drop (k * s)).take s)) := by
        apply List.map_congr_left
        intro k _
        exact hcomp k
      rw [show (List.map ((fun k => (l.drop (k * s)).take s) ∘ Nat.succ) (List.range cnt))
            = (List.map (fun k => (l.drop ((k.succ) * s)).take s) (List.range cnt)) from rfl]
      rw [this, ih (l.drop s)
        (by simp only [List.length_drop]; rw [Nat.succ_mul] at hl; omega)]
      exact List.take_append_drop s l

/-- Round-up division covers: `a ≤ ((a + s - 1) / s) * s`. -/
theorem ceil_div_mul_ge (a s : Nat) (hs : 0 < s) : a ≤ ((a + s - 1) / s) * s := by
  have h1 := Nat.div_add_mod (a + s - 1) s
  have h2 := Nat.mod_lt (a + s - 1) hs
  rw [Nat.mul_comm]
  omega

/-- `pyMapM` over a mapped list, when every image succeeds pointwise. -/
theorem pyMapM_of_forall_some {γ : Type} (g : Json → Option (List Json))
    (f : γ → Json) (f' : γ → List Json) :
    ∀ l : List γ, (∀ x ∈ l, g (f x) = some (f' x)) →
      pyMapM g (l.map f) = some (l.map f') := by
  intro l
  induction l with
  | nil => intro _; rfl
  | cons x l ih =>
      intro hall
      simp only [List.map_cons, pyMapM, hall x (List.mem_cons_self x l),
        Option.bind_eq_bind, Option.some_bind,
        ih (fun y hy => hall y (List.mem_cons_of_mem x hy)), Option.pure_def]

/-- C3 (amended): whenever the bundle fits in the ceiling or its
foundational entries number strictly fewer than the ceiling, every
sub-bundle the splitter returns has at most `L` entries and the
concatenation, in order, of the non-foundational entries of the sub-bundles
is exactly the original non-foundational entry sequence. -/
theorem C3_splitter_bound_and_nonfoundational_order (bundle : Json) (L : Nat)
    (es bs : List Json)
    (hes : bundleEntryList bundle = some es)
    (hsplit : split_bundle_entries bundle L = some bs)
    (hF : (es.filter isFoundationalD).length < L ∨ es.length ≤ L) :
    ∃ ess : List (List Json),
      pyMapM bundleEntryList bs = some ess ∧
      (∀ es' ∈ ess, es'.length ≤ L) ∧
      (ess.map (fun es' => es'.filter (fun e => !(isFoundationalD e)))).flatten =
        es.filter (fun e => !(isFoundationalD e)) := by
  simp only [split_bundle_entries, Option.bind_eq_bind] at hsplit
  cases hg : pyGet bundle "entry" (.arr []) with
  | none => rw [hg] at hsplit; simp at hsplit
  | some ej =>
  rw [hg] at hsplit
  simp only [Option.some_bind] at hsplit
  have hiter : pyIter ej = some es := by
    simp only [bundleEntryList, hg, Option.bind_eq_bind, Option.some_bind] at hes
    exact hes
  cases hn : pyLen ej with
  | none => rw [hn] at hsplit; simp at hsplit
  | some n =>
  rw [hn] at hsplit
  simp only [Option.some_bind] at hsplit
  have hlen : es.length = n := pyLen_pyIter ej n es hn hiter
  by_cases hnL : n ≤ L
  · rw [if_pos hnL] at hsplit
    simp only [Option.pure_def, Option.some.injEq] at hsplit
    subst hsplit
    refine ⟨[es], ?_, ?_, by simp⟩
    · simp [pyMapM, hes]
    · intro es' hes'
      simp only [List.mem_singleton] at hes'
      subst hes'
      omega
  · rw [if_neg hnL] at hsplit
    simp only [Option.bind_eq_bind, hiter, Option.some_bind] at hsplit
    cases hss : pySortedByKey es get_order with
    | none => rw [hss] at hsplit; simp at hsplit
    | some ss =>
    rw [hss] at hsplit
    simp only [Option.some_bind] at hsplit
    obtain ⟨hperm, hstable, _hsorted, hdef⟩ := pySortedByKey_spec get_order es ss hss
    have hdef_es : ∀ e ∈ es, ∃ k, get_order e = some k := by
      intro e he
      exact hdef e (hperm.mem_iff.mpr he)
    rw [pyFilterM_defined (fun k => decide (k < 99)) ss hdef] at hsplit
    rw [pyFilterM_defined (fun k => decide (k ≥ 99)) ss hdef] at hsplit
    simp only [Option.some_bind] at hsplit
    cases hbt : pyGet bundle "type" (.str "transaction") with
    | none => rw [hbt] at hsplit; simp at hsplit
    | some bt =>
    rw [hbt] at hsplit
    simp only [Option.some_bind] at hsplit
    set F := ss.filter (fun e => decide ((get_order e).getD 99 < 99)) with hFdef
    set other := ss.filter (fun e => decide ((get_order e).getD 99 ≥ 99)) with hOdef
    have hFlen : F.length = (es.filter isFoundationalD).length := by
      have hp : F.Perm (es.filter isFoundationalD) := by
        rw [hFdef]
        exact hperm.filter isFoundationalD
      exact hp.length_eq
    have hFL : F.length < L := by
      rcases hF with h | h
      · omega
      · omega
    set s := L - F.length with hsdef
    have hs : 0 < s := by omega
    have hstep : (L : ℤ) - (F.length : ℤ) = (s : ℤ) := by omega
    rw [hstep] at hsplit
    simp only [pythonRange] at hsplit
    rw [if_neg (by omega : ¬((s : ℤ) = 0)), if_pos (by omega : (s : ℤ) > 0)] at hsplit
    have hmax : (max 1 ((other.length : ℕ) : ℤ) - 0).toNat = max 1 other.length := by
      omega
    rw [hmax] at hsplit
    have hsnat : ((s : ℕ) : ℤ).toNat = s := by omega
    rw [hsnat] at hsplit
    simp only [Option.bind_eq_bind, Option.some_bind, Option.pure_def,
      Option.some.injEq] at hsplit
    set cnt := (max 1 other.length + (s - 1)) / s with hcnt
    have hbs : bs = ((List.range cnt).map (fun k => 0 + (s : ℤ) * (k : ℕ))).map
        (fun i =>
          Json.obj [("resourceType", .str "Bundle"), ("type", bt),
            ("entry", .arr (if i == 0 then F ++ pySlice other i (i + (s : ℤ))
                            else pySlice other i (i + (s : ℤ))))]) := by
      rw [← hsplit]
    have hcover : other.length ≤ cnt * s := by
      have h1 : max 1 other.length ≤ cnt * s := by
        rw [hcnt, show (1 ⊔ other.length + (s - 1)) = (1 ⊔ other.length + s - 1) from
          by omega]
        exact ceil_div_mul_ge (max 1 other.length) s hs
      omega
    -- each produced sub-bundle's entry list
    have hentry : ∀ i : ℤ,
        bundleEntryList (Json.obj [("resourceType", .str "Bundle"), ("type", bt),
          ("entry", .arr (if i == 0 then F ++ pySlice other i (i + (s : ℤ))
                          else pySlice other i (i + (s : ℤ))))]) =
        some (if i == 0 then F ++ pySlice other i (i + (s : ℤ))
              else pySlice other i (i + (s : ℤ))) := by
      intro i
      rfl
    have hslice : ∀ k : Nat, pySlice other (0 + (s : ℤ) * (k : ℕ))
        ((0 + (s : ℤ) * (k : ℕ)) + (s : ℤ)) = (other.drop (k * s)).take s := by
      intro k
      have e1 : (0 + (s : ℤ) * (k : ℕ)) = ((k * s : ℕ) : ℤ) := by push_cast; ring
      have e2 : ((0 + (s : ℤ) * (k : ℕ)) + (s : ℤ)) = ((k * s + s : ℕ) : ℤ) := by
        push_cast; ring
      have h1 : ((0 + (s : ℤ) * (k : ℕ))).toNat = k * s := by
        rw [e1, Int.toNat_natCast]
      have h2 : ((0 + (s : ℤ) * (k : ℕ)) + (s : ℤ)).toNat = k * s + s := by
        rw [e2, Int.toNat_natCast]
      simp only [pySlice, h1, h2]
      rw [List.take_drop]
    have hsliceLen : ∀ k : Nat, ((other.drop (k * s)).take s).length ≤ s := by
      intro k
      simp
    have hchunkNonF : ∀ k : Nat, ∀ e ∈ (other.drop (k * s)).take s,
        (!(isFoundationalD e)) = true := by
      intro k e he
      have hmem : e ∈ other := List.mem_of_mem_drop (List.mem_of_mem_take he)
      rw [hOdef] at hmem
      have := List.of_mem_filter hmem
      simp only [isFoundationalD]
      simp only [decide_eq_true_eq] at this
      simp only [Bool.not_eq_true']
      simp only [decide_eq_false_iff_not]
      omega
    have hFfound : ∀ e ∈ F, (!(isFoundationalD e)) = false := by
      intro e he
      rw [hFdef] at he
      have := List.of_mem_filter he
      simp only [isFoundationalD]
      simp only [decide_eq_true_eq] at this
      simp [this]
    refine ⟨(List.range cnt).map (fun k =>
        if (0 + (s : ℤ) * (k : ℕ)) == 0
        then F ++ pySlice other (0 + (s : ℤ) * (k : ℕ)) ((0 + (s : ℤ) * (k : ℕ)) + (s : ℤ))
        else pySlice other (0 + (s : ℤ) * (k : ℕ)) ((0 + (s : ℤ) * (k : ℕ)) + (s : ℤ))),
      ?_, ?_, ?_⟩
    · rw [hbs, List.map_map]
      exact pyMapM_of_forall_some _ _ _ (List.range cnt)
        (fun k _ => hentry (0 + (s : ℤ) * (k : ℕ)))
    · intro es' hes'
      simp only [List.mem_map] at hes'
      obtain ⟨k, _, hk⟩ := hes'
      rw [← hk]
      have hchlen : (pySlice other (0 + (s : ℤ) * (k : ℕ))
          ((0 + (s : ℤ) * (k : ℕ)) + (s : ℤ))).length ≤ s := by
        rw [hslice k]
        exact hsliceLen k
      cases hc : ((0 + (s : ℤ) * (k : ℕ)) == 0) with
      | false =>
          rw [if_neg Bool.false_ne_true]
          omega
      | true =>
          rw [if_pos rfl, List.length_append]
          omega
    · -- the non-foundational concatenation
      have hmapfil : (List.map (fun es' => es'.filter (fun e => !(isFoundationalD e)))
            ((List.range cnt).map (fun k =>
              if (0 + (s : ℤ) * (k : ℕ)) == 0
              then F ++ pySlice other (0 + (s : ℤ) * (k : ℕ))
                     ((0 + (s : ℤ) * (k : ℕ)) + (s : ℤ))
              else pySlice other (0 + (s : ℤ) * (k : ℕ))
                     ((0 + (s : ℤ) * (k : ℕ)) + (s : ℤ))))) =
          (List.range cnt).map (fun k => (other.drop (k * s)).take s) := by
        rw [List.map_map]
        apply List.map_congr_left
        intro k _
        simp only [Function.comp]
        have hch : (pySlice other (0 + (s : ℤ) * (k : ℕ))
            ((0 + (s : ℤ) * (k : ℕ)) + (s : ℤ))).filter (fun e => !(isFoundationalD e)) =
            (other.drop (k * s)).take s := by
          rw [hslice k]
          exact List.filter_eq_self.mpr (hchunkNonF k)
        cases hc : ((0 + (s : ℤ) * (k : ℕ)) == 0) with
        | false =>
            rw [if_neg Bool.false_ne_true]
            exact hch
        | true =>
            rw [if_pos rfl, List.filter_append,
              List.filter_eq_nil_iff.mpr (by intro e he; simp [hFfound e he])]
            simpa using hch
      rw [hmapfil, chunk_flatten s hs cnt other hcover]
      -- `other` is the stable non-foundational sub-sequence of `es`
      have h99 : other = ss.filter (fun e => decide (get_order e = some 99)) := by
        rw [hOdef]
        apply List.filter_congr
        intro e he
        obtain ⟨k, hk⟩ := hdef e he
        rcases get_order_range e k hk with h4 | h9 <;> simp [hk] <;> omega
      have h99' : es.filter (fun e => decide (get_order e = some 99)) =
          es.filter (fun e => !(isFoundationalD e)) := by
        apply List.filter_congr
        intro e he
        obtain ⟨k, hk⟩ := hdef_es e he
        rcases get_order_range e k hk with h4 | h9 <;>
          (simp only [hk, isFoundationalD, Option.getD_some, Option.some.injEq,
            ← decide_not, decide_eq_decide]
           omega)
      rw [h99, hstable 99, h99']

/-- C3 counterexample: with four entries of which three are foundational
and ceiling 2, the splitter returns no sub-bundles at all, so the
concatenated non-foundational entries of the output (none) differ from the
original non-foundational entry sequence (one Observation). -/
theorem C3_splitter_counterexample :
    split_bundle_entries (exBundle [exEntry "Patient", exEntry "Patient",
      exEntry "Patient", exEntry "Observation"]) 2 = some [] ∧
    bundleEntryList (exBundle [exEntry "Patient", exEntry "Patient",
      exEntry "Patient", exEntry "Observation"]) =
      some [exEntry "Patient", exEntry "Patient", exEntry "Patient",
        exEntry "Observation"] ∧
    ([exEntry "Patient", exEntry "Patient", exEntry "Patient",
      exEntry "Observation"].filter (fun e => !(isFoundationalD e))).length = 1 :=
  ⟨rfl, rfl, by decide⟩

/-- C3 witness: the amended theorem applied to a five-entry bundle with one
foundational entry and ceiling 2. -/
theorem C3_splitter_bound_and_nonfoundational_order_witness :
    ∃ ess : List (List Json),
      pyMapM bundleEntryList
          ((split_bundle_entries (exBundle [exEntry "Patient", exEntry "Observation",
            exEntry "Observation", exEntry "Observation", exEntry "Condition"]) 2).getD
            []) = some ess ∧
      (∀ es' ∈ ess, es'.length ≤ 2) ∧
      (ess.map (fun es' => es'.filter (fun e => !(isFoundationalD e)))).flatten =
        [exEntry "Patient", exEntry "Observation", exEntry "Observation",
          exEntry "Observation", exEntry "Condition"].filter
          (fun e => !(isFoundationalD e)) :=
  C3_splitter_bound_and_nonfoundational_order
    (exBundle [exEntry "Patient", exEntry "Observation", exEntry "Observation",
      exEntry "Observation", exEntry "Condition"]) 2
    [exEntry "Patient", exEntry "Observation", exEntry "Observation",
      exEntry "Observation", exEntry "Condition"]
    ((split_bundle_entries (exBundle [exEntry "Patient", exEntry "Observation",
      exEntry "Observation", exEntry "Observation", exEntry "Condition"]) 2).getD [])
    rfl rfl (Or.inl (by decide))

/-! ## The rewriter against the specification's words (§4.4) -/

mutual
/-- The Reference Rewriter's conditional-substitution pass as §4.4 words
it, written independently of the code for the refinement proof: pure
structural recursion over mapping/sequence values that preserves field
order and unrelated fields verbatim, substituting any conditional-shaped
`reference` value with its Reference Map lookup if present and otherwise
leaving it unchanged. -/
def rewriterSpec (ref_map : List (String × String)) : Json → Json
  | .obj kvs => .obj (rewriterSpecKV ref_map kvs)
  | .arr xs => .arr (rewriterSpecL ref_map xs)
  | j => j

def rewriterSpecKV (ref_map : List (String × String)) :
    List (String × Json) → List (String × Json)
  | [] => []
  | (key, value) :: rest =>
      (key,
        if key == "reference" && is_conditional_reference value then
          match List.lookup (strOfD value) ref_map with
          | some direct => .str direct
          | none => value
        else rewriterSpec ref_map value) :: rewriterSpecKV ref_map rest

def rewriterSpecL (ref_map : List (String × String)) : List Json → List Json
  | [] => []
  | x :: xs => rewriterSpec ref_map x :: rewriterSpecL ref_map xs
end

mutual
theorem tcd_eq_rewriterSpec (m : List (String × String)) :
    ∀ j, transform_conditional_to_direct j m = rewriterSpec m j
  | .null => rfl
  | .bool _ => rfl
  | .num _ => rfl
  | .str _ => rfl
  | .arr xs => by rw [transform_conditional_to_direct, rewriterSpec, tcdL_eq_rewriterSpecL m xs]
  | .obj kvs => by rw [transform_conditional_to_direct, rewriterSpec, tcdKV_eq_rewriterSpecKV m kvs]

theorem tcdKV_eq_rewriterSpecKV (m : List (String × String)) :
    ∀ kvs, tcdKV kvs m = rewriterSpecKV m kvs
  | [] => rfl
  | (key, value) :: rest => by
      rw [tcdKV, rewriterSpecKV, tcdKV_eq_rewriterSpecKV m rest]
      congr 1
      cases hc : (key == "reference" && is_conditional_reference value) with
      | false => simp only [hc, if_false, Bool.false_eq_true, tcd_eq_rewriterSpec m value]
      | true =>
          simp only [hc, if_true]
          cases hl : List.lookup (strOfD value) m with
          | some direct => simp [hl]
          | none =>
              simp only [hl, Option.getD_none]
              have hv : is_conditional_reference value = true := by
                cases h2 : is_conditional_reference value <;> simp_all
              cases value <;> simp_all [is_conditional_reference, strOfD]

theorem tcdL_eq_rewriterSpecL (m : List (String × String)) :
    ∀ xs, tcdL xs m = rewriterSpecL m xs
  | [] => rfl
  | x :: xs => by
      rw [tcdL, rewriterSpecL, tcd_eq_rewriterSpec m x, tcdL_eq_rewriterSpecL m xs]
end


/-- A successful association-list lookup pinpoints a member pair. -/
theorem lookup_pair_mem {k v : String} :
    ∀ m : List (String × String), List.lookup k m = some v → (k, v) ∈ m := by
  intro m
  induction m with
  | nil => intro h; simp [List.lookup] at h
  | cons p rest ih =>
      intro h
      rw [List.lookup] at h
      cases hk : (k == p.1) with
      | true =>
          rw [hk] at h
          simp only [Option.some.injEq] at h
          have hkeq : k = p.1 := eq_of_beq hk
          subst h
          rw [hkeq]
          simp
      | false =>
          rw [hk] at h
          exact List.mem_cons_of_mem p (ih h)

/-- The rewrite leaves the conditional-or-not status of non-substituted
values unchanged (scalars are returned verbatim, containers stay
containers). -/
theorem is_cond_tcd (m : List (String × String)) (value : Json)
    (h : is_conditional_reference value = false) :
    is_conditional_reference (transform_conditional_to_direct value m) = false := by
  cases value <;> simp_all [transform_conditional_to_direct, is_conditional_reference]

mutual
theorem extract_tcd_no_key (m : List (String × String))
    (hm : ∀ p ∈ m, strContainsChar p.2 '?' = false) :
    ∀ (j : Json) (acc : List String), (∀ r ∈ acc, List.lookup r m = none) →
      ∀ r ∈ extract_conditional_refs_from_resource
          (transform_conditional_to_direct j m) acc,
        List.lookup r m = none
  | .null => fun acc hacc r hr => hacc r hr
  | .bool _ => fun acc hacc r hr => hacc r hr
  | .num _ => fun acc hacc r hr => hacc r hr
  | .str _ => fun acc hacc r hr => hacc r hr
  | .arr xs => fun acc hacc r hr => extractL_tcd_no_key m hm xs acc hacc r hr
  | .obj kvs => fun acc hacc r hr => extractKV_tcd_no_key m hm kvs acc hacc r hr

theorem extractKV_tcd_no_key (m : List (String × String))
    (hm : ∀ p ∈ m, strContainsChar p.2 '?' = false) :
    ∀ (kvs : List (String × Json)) (acc : List String),
      (∀ r ∈ acc, List.lookup r m = none) →
      ∀ r ∈ extractRefsKV (tcdKV kvs m) acc, List.lookup r m = none
  | [] => fun acc hacc r hr => hacc r hr
  | (key, value) :: rest => by
      intro acc hacc r hr
      rw [tcdKV] at hr
      cases hc : (key == "reference" && is_conditional_reference value) with
      | true =>
          rw [hc, if_pos rfl] at hr
          rw [extractRefsKV] at hr
          cases hl : List.lookup (strOfD value) m with
          | some w =>
              rw [hl, Option.getD_some] at hr
              have hw : strContainsChar w '?' = false :=
                hm (strOfD value, w) (lookup_pair_mem m hl)
              have hcw : is_conditional_reference (.str w) = false := by
                simp [is_conditional_reference, hw]
              rw [hcw, Bool.and_false, if_neg Bool.false_ne_true] at hr
              rw [show extract_conditional_refs_from_resource (.str w) acc = acc
                from rfl] at hr
              exact extractKV_tcd_no_key m hm rest acc hacc r hr
          | none =>
              rw [hl, Option.getD_none] at hr
              have hcv : is_conditional_reference value = true := by
                cases h2 : is_conditional_reference value <;> simp_all
              have hvs : value = .str (strOfD value) := by
                cases value <;> simp_all [is_conditional_reference, strOfD]
              have hguard : (key == "reference" &&
                  is_conditional_reference (.str (strOfD value))) = true := by
                rw [← hvs, hc]
              rw [hguard, if_pos rfl] at hr
              refine extractKV_tcd_no_key m hm rest _ ?_ r hr
              intro r' hr'
              simp only [setAdd] at hr'
              by_cases hmem : acc.contains (strOfD (Json.str (strOfD value)))
              · rw [if_pos hmem] at hr'
                exact hacc r' hr'
              · rw [if_neg hmem] at hr'
                rcases List.mem_append.mp hr' with h | h
                · exact hacc r' h
                · simp only [List.mem_singleton] at h
                  subst h
                  simpa [strOfD] using hl
      | false =>
          rw [hc, if_neg Bool.false_ne_true] at hr
          rw [extractRefsKV] at hr
          have houter : (key == "reference" &&
              is_conditional_reference (transform_conditional_to_direct value m)) =
              false := by
            by_cases hkey : (key == "reference") = true
            · have hcv : is_conditional_reference value = false := by
                cases h2 : is_conditional_reference value <;> simp_all
              rw [is_cond_tcd m value hcv, Bool.and_false]
            · simp only [Bool.not_eq_true] at hkey
              rw [hkey, Bool.false_and]
          rw [houter, if_neg Bool.false_ne_true] at hr
          exact extractKV_tcd_no_key m hm rest _
            (fun r' hr' => extract_tcd_no_key m hm value acc hacc r' hr') r hr

theorem extractL_tcd_no_key (m : List (String × String))
    (hm : ∀ p ∈ m, strContainsChar p.2 '?' = false) :
    ∀ (xs : List Json) (acc : List String),
      (∀ r ∈ acc, List.lookup r m = none) →
      ∀ r ∈ extractRefsL (tcdL xs m) acc, List.lookup r m = none
  | [] => fun acc hacc r hr => hacc r hr
  | x :: xs => by
      intro acc hacc r hr
      rw [tcdL] at hr
      rw [extractRefsL] at hr
      exact extractL_tcd_no_key m hm xs _
        (fun r' hr' => extract_tcd_no_key m hm x acc hacc r' hr') r hr
end

/-- C4: the rewriter equals, on every input and map, the specification's
structural-substitution recursion (so conditional `reference` values found
in the map are replaced by their direct form, unresolved ones are kept
verbatim, all other fields and the field order are preserved verbatim, and
the function is total); moreover when the map's values are Direct
references (no query marker — the Reference Map's data model), the
rewritten entity retains no conditional reference for any resolvable
identifier pair: nothing the scanner extracts from the output is a key of
the map. -/
theorem C4_rewriter_total_and_resolving (ref_map : List (String × String)) (j : Json) :
    transform_conditional_to_direct j ref_map = rewriterSpec ref_map j ∧
    ((∀ p ∈ ref_map, strContainsChar p.2 '?' = false) →
      ∀ r ∈ extract_conditional_refs_from_resource
          (transform_conditional_to_direct j ref_map) [],
        List.lookup r ref_map = none) :=
  ⟨tcd_eq_rewriterSpec ref_map j,
   fun hm => extract_tcd_no_key ref_map hm j [] (fun r hr => absurd hr (by simp))⟩

/-- C4 witness: a map resolving one Practitioner reference, applied to an
entity with one resolvable and one unresolvable conditional reference. -/
theorem C4_rewriter_total_and_resolving_witness :
    transform_conditional_to_direct
        (.obj [("a", .obj [("reference", .str "Practitioner?identifier=s|v")]),
               ("b", .obj [("reference", .str "Location?identifier=x|y")])])
        [("Practitioner?identifier=s|v", "Practitioner/abc")] =
      rewriterSpec [("Practitioner?identifier=s|v", "Practitioner/abc")]
        (.obj [("a", .obj [("reference", .str "Practitioner?identifier=s|v")]),
               ("b", .obj [("reference", .str "Location?identifier=x|y")])]) ∧
    List.lookup "Location?identifier=x|y"
      [("Practitioner?identifier=s|v", "Practitioner/abc")] = none :=
  ⟨(C4_rewriter_total_and_resolving
      [("Practitioner?identifier=s|v", "Practitioner/abc")]
      (.obj [("a", .obj [("reference", .str "Practitioner?identifier=s|v")]),
             ("b", .obj [("reference", .str "Location?identifier=x|y")])])).1,
   (C4_rewriter_total_and_resolving
      [("Practitioner?identifier=s|v", "Practitioner/abc")]
      (.obj [("a", .obj [("reference", .str "Practitioner?identifier=s|v")]),
             ("b", .obj [("reference", .str "Location?identifier=x|y")])])).2
     (by decide) "Location?identifier=x|y" (by decide)⟩

/-- A fold whose step raises on some list element (independently of the
accumulated state) raises. -/
theorem pyFoldlM_none (g : σ → α → Option σ) :
    ∀ (l : List α) (s : σ), (∃ x ∈ l, ∀ s', g s' x = none) →
      pyFoldlM g s l = none := by
  intro l
  induction l with
  | nil => intro s h; simp at h
  | cons y ys ih =>
      intro s h
      rw [pyFoldlM]
      obtain ⟨x, hx, hnone⟩ := h
      rcases List.mem_cons.mp hx with rfl | hx'
      · rw [hnone s]
        rfl
      · cases hg : g s y with
        | none => rfl
        | some s' =>
            simp only [Option.bind_eq_bind, Option.some_bind]
            exact ih s' ⟨x, hx', hnone⟩

/-- A map whose function raises on some element raises. -/
theorem pyMapM_none (g : α → Option β) :
    ∀ l : List α, (∃ x ∈ l, g x = none) → pyMapM g l = none := by
  intro l
  induction l with
  | nil => intro h; simp at h
  | cons y ys ih =>
      intro h
      rw [pyMapM]
      obtain ⟨x, hx, hnone⟩ := h
      rcases List.mem_cons.mp hx with rfl | hx'
      · rw [hnone]
        rfl
      · cases hg : g y with
        | none => rfl
        | some s' =>
            simp only [Option.bind_eq_bind, Option.some_bind, ih ⟨x, hx', hnone⟩]
            rfl

/-- C8 counterexample: three resolver stages raise on wrongly-typed
fields instead of skipping the malformed sub-tree — a non-string `fullUrl`
crashes the reference-map builder (`AttributeError` on `startswith`), a
non-mapping entry crashes the orderer and the splitter (`AttributeError`
on `get`). -/
theorem C8_resolver_raises_counterexample :
    build_conditional_reference_map
      (exBundle [.obj [("fullUrl", .num 5),
        ("resource", .obj [("resourceType", .str "Patient")])]]) = none ∧
    reorder_bundle_entries (exBundle [.num 3]) = none ∧
    split_bundle_entries
      (exBundle [.num 3, .num 3, .num 3, .num 3, .num 3]) 2 = none :=
  ⟨rfl, rfl, rfl⟩

/-- C8 (amended): the scanner skips malformed (non-mapping, non-sequence)
sub-trees outright and the rewriters return scalars verbatim — these
stages are total functions of their input — but the reference-map builder
and the entry orderer raise as soon as any entry's per-entry processing
raises, rather than skipping that entry. -/
theorem C8_scanner_total_builders_raise :
    (∀ (j : Json) (acc : List String), (∀ xs, j ≠ .arr xs) → (∀ kvs, j ≠ .obj kvs) →
      extract_conditional_refs_from_resource j acc = acc) ∧
    (∀ (m : List (String × String)) (j : Json),
      (∀ xs, j ≠ .arr xs) → (∀ kvs, j ≠ .obj kvs) →
      transform_conditional_to_direct j m = j ∧
      transform_references_in_resource j = j) ∧
    (∀ (bundle : Json) (es : List Json), bundleEntryList bundle = some es →
      (∃ e ∈ es, ∀ acc, registerEntryIdentifiers acc e = none) →
      build_conditional_reference_map bundle = none) ∧
    (∀ (bundle : Json) (es : List Json), bundleEntryList bundle = some es →
      (∃ e ∈ es, get_order e = none) →
      reorder_bundle_entries bundle = none) := by
  refine ⟨?_, ?_, ?_, ?_⟩
  · intro j acc ha ho
    cases j <;> first
      | rfl
      | exact absurd rfl (ha _)
      | exact absurd rfl (ho _)
  · intro m j ha ho
    cases j <;> first
      | exact ⟨rfl, rfl⟩
      | exact absurd rfl (ha _)
      | exact absurd rfl (ho _)
  · intro bundle es hes hdoom
    simp only [bundleEntryList, Option.bind_eq_bind] at hes
    simp only [build_conditional_reference_map, Option.bind_eq_bind]
    cases hg : pyGet bundle "entry" (.arr []) with
    | none => rw [hg] at hes; simp at hes
    | some ej =>
        rw [hg] at hes
        simp only [Option.some_bind] at hes
        simp only [Option.some_bind, hes]
        exact pyFoldlM_none registerEntryIdentifiers es []
          (by obtain ⟨e, he, hd⟩ := hdoom; exact ⟨e, he, hd⟩)
  · intro bundle es hes hbad
    simp only [bundleEntryList, Option.bind_eq_bind] at hes
    simp only [reorder_bundle_entries, Option.bind_eq_bind]
    cases hg : pyGet bundle "entry" (.arr []) with
    | none => rw [hg] at hes; simp at hes
    | some ej =>
        rw [hg] at hes
        simp only [Option.some_bind] at hes
        simp only [Option.some_bind, hes]
        have : pySortedByKey es get_order = none := by
          simp only [pySortedByKey, Option.bind_eq_bind]
          rw [pyMapM_none _ es
            (by obtain ⟨e, he, hd⟩ := hbad; exact ⟨e, he, by rw [hd]; rfl⟩)]
          rfl
        rw [this]
        rfl

/-- C8 witness: the amended theorem applied to the wrongly-typed inputs of
the counterexample. -/
theorem C8_scanner_total_builders_raise_witness :
    extract_conditional_refs_from_resource (.num 7) ["x"] = ["x"] ∧
    build_conditional_reference_map
      (exBundle [.obj [("fullUrl", .num 5),
        ("resource", .obj [("resourceType", .str "Patient")])]]) = none ∧
    reorder_bundle_entries (exBundle [.num 3]) = none :=
  ⟨C8_scanner_total_builders_raise.1 (.num 7) ["x"] (by intro xs h; cases h)
      (by intro kvs h; cases h),
   C8_scanner_total_builders_raise.2.2.1
      (exBundle [.obj [("fullUrl", .num 5),
        ("resource", .obj [("resourceType", .str "Patient")])]])
      [.obj [("fullUrl", .num 5), ("resource", .obj [("resourceType", .str "Patient")])]]
      rfl
      ⟨.obj [("fullUrl", .num 5), ("resource", .obj [("resourceType", .str "Patient")])],
        by simp, fun acc => rfl⟩,
   C8_scanner_total_builders_raise.2.2.2 (exBundle [.num 3]) [.num 3] rfl
      ⟨.num 3, by simp, rfl⟩⟩

/-! ## The reference-map builder against the amended claim (C6) -/

/-- Total projection for the specification-side definitions. -/
def objGet (o : Json) (k : String) : Option Json :=
  match o with
  | .obj kvs => jLookup k kvs
  | _ => none

/-- String field with `""` default, as the builder reads fields of
well-formed entries. -/
def objGetStr (o : Json) (k : String) : String :=
  match objGet o k with
  | some (.str s) => s
  | _ => ""

/-- The final id of an entry per the amended C6 claim: the `fullUrl` with
every `urn:uuid:` occurrence removed when it starts with that prefix,
otherwise the segment after its last `/` when it contains one, otherwise
the entity's own declared id. -/
def final_id_spec (entry : Json) : String :=
  let fu := objGetStr entry "fullUrl"
  if strStartsWith fu "urn:uuid:" then strReplace fu "urn:uuid:" ""
  else if strContainsChar fu '/' then (strSplitOn fu "/").getLastD ""
  else objGetStr ((objGet entry "resource").getD (.obj [])) "id"

/-- The declared alternate identifiers of an entity, as `(system, value)`
string pairs. -/
def identifier_pairs_spec (resource : Json) : List (String × String) :=
  match objGet resource "identifier" with
  | some (.arr ids) => ids.map (fun idj => (objGetStr idj "system", objGetStr idj "value"))
  | _ => []

/-- One entry's registrations per the amended C6 claim: when the final id
is non-empty, register `kind?identifier=system|value -> kind/final_id` for
every identifier with non-empty system and value, overwriting in place
(last write wins); entries with an empty final id register nothing. -/
def register_entry_spec (m : List (String × String)) (entry : Json) :
    List (String × String) :=
  let resource := (objGet entry "resource").getD (.obj [])
  let rt := objGetStr resource "resourceType"
  let fid := final_id_spec entry
  if fid = "" then m
  else
    (identifier_pairs_spec resource).foldl
      (fun m sv =>
        if sv.1 ≠ "" ∧ sv.2 ≠ "" then
          dictUpdStr m (rt ++ "?identifier=" ++ sv.1 ++ "|" ++ sv.2) (rt ++ "/" ++ fid)
        else m) m

/-- The whole map per the amended C6 claim. -/
def build_ref_map_spec (bundle : Json) : List (String × String) :=
  (match objGet bundle "entry" with
   | some (.arr es) => es
   | _ => []).foldl register_entry_spec []

/-- Well-formed identifier object: a mapping whose `system` and `value`
are strings when present. -/
def wf_identifier (j : Json) : Bool :=
  match j with
  | .obj kvs =>
      (match jLookup "system" kvs with
       | none => true | some (.str _) => true | some _ => false) &&
      (match jLookup "value" kvs with
       | none => true | some (.str _) => true | some _ => false)
  | _ => false

/-- Well-formed entry: a mapping with string-or-absent `fullUrl` and a
mapping-or-absent `resource` with string-or-absent `resourceType`/`id` and
a list-or-absent `identifier` of well-formed identifiers. -/
def wf_entry (j : Json) : Bool :=
  match j with
  | .obj kvs =>
      (match jLookup "fullUrl" kvs with
       | none => true | some (.str _) => true | some _ => false) &&
      (match jLookup "resource" kvs with
       | none => true
       | some (.obj rkvs) =>
           (match jLookup "resourceType" rkvs with
            | none => true | some (.str _) => true | some _ => false) &&
           (match jLookup "id" rkvs with
            | none => true | some (.str _) => true | some _ => false) &&
           (match jLookup "identifier" rkvs with
            | none => true
            | some (.arr ids) => ids.all wf_identifier
            | some _ => false)
       | some _ => false)
  | _ => false

/-- Well-formed bundle: a mapping whose `entry` is absent or a list of
well-formed entries. -/
def wf_bundle (b : Json) : Bool :=
  match b with
  | .obj kvs =>
      match jLookup "entry" kvs with
      | none => true
      | some (.arr es) => es.all wf_entry
      | some _ => false
  | _ => false

/-- A well-formed string-or-absent field read with `.get(key, "")` yields
the string `objGetStr` computes. -/
theorem wf_str_field (kvs : List (String × Json)) (key : String)
    (h : (match jLookup key kvs with
          | none => true | some (.str _) => true | some _ => false) = true) :
    pyGet (.obj kvs) key (.str "") = some (.str (objGetStr (.obj kvs) key)) := by
  cases hL : jLookup key kvs with
  | none => simp [pyGet, objGetStr, objGet, hL]
  | some v =>
      cases v <;> rw [hL] at h <;> simp_all [pyGet, objGetStr, objGet]

/-- The string-truthiness test of the builder matches the non-emptiness
conjunction of the specification. -/
theorem truthy_pair_iff (s v : String) :
    ((pyTruthy (.str s) && pyTruthy (.str v)) = true) ↔ (s ≠ "" ∧ v ≠ "") := by
  simp only [pyTruthy, Bool.and_eq_true, Bool.not_eq_true']
  constructor
  · rintro ⟨h1, h2⟩
    exact ⟨fun he => by simp [he, show "".isEmpty = true from rfl] at h1,
      fun he => by simp [he, show "".isEmpty = true from rfl] at h2⟩
  · rintro ⟨h1, h2⟩
    refine ⟨?_, ?_⟩ <;> rw [← Bool.not_eq_true, String.isEmpty_iff] <;> assumption

/-- The identifier loop of the builder equals its specification fold on
well-formed identifier lists. -/
theorem register_ids_eq (rtJ uuidJ : Json) :
    ∀ (ids : List Json), ids.all wf_identifier = true →
    ∀ (m : List (String × String)),
      pyFoldlM (fun m identifier => do
        let systemJ ← pyGet identifier "system" (.str "")
        let valueJ ← pyGet identifier "value" (.str "")
        if pyTruthy systemJ && pyTruthy valueJ then
          pure (dictUpdStr m
            (pyStr rtJ ++ "?identifier=" ++ pyStr systemJ ++ "|" ++ pyStr valueJ)
            (pyStr rtJ ++ "/" ++ pyStr uuidJ))
        else pure m) m ids =
      some (ids.foldl (fun m idj =>
        if objGetStr idj "system" ≠ "" ∧ objGetStr idj "value" ≠ "" then
          dictUpdStr m
            (pyStr rtJ ++ "?identifier=" ++ objGetStr idj "system" ++ "|" ++
              objGetStr idj "value")
            (pyStr rtJ ++ "/" ++ pyStr uuidJ)
        else m) m) := by
  intro ids
  induction ids with
  | nil => intro _ m; rfl
  | cons idj ids ih =>
      intro hwf m
      simp only [List.all_cons, Bool.and_eq_true] at hwf
      obtain ⟨hid, hrest⟩ := hwf
      rw [pyFoldlM, List.foldl_cons]
      cases idj with
      | obj ikvs =>
          simp only [wf_identifier, Bool.and_eq_true] at hid
          have hgs := wf_str_field ikvs "system" hid.1
          have hgv := wf_str_field ikvs "value" hid.2
          simp only [Option.bind_eq_bind, hgs, hgv, Option.some_bind]
          by_cases hcond : objGetStr (.obj ikvs) "system" ≠ "" ∧
              objGetStr (.obj ikvs) "value" ≠ ""
          · rw [if_pos ((truthy_pair_iff _ _).mpr hcond), if_pos hcond]
            simp only [Option.pure_def, Option.some_bind]
            exact ih hrest _
          · rw [if_neg (fun hb => hcond ((truthy_pair_iff _ _).mp hb)),
              if_neg hcond]
            simp only [Option.pure_def, Option.some_bind]
            exact ih hrest m
      | null => simp [wf_identifier] at hid
      | bool b => simp [wf_identifier] at hid
      | num n => simp [wf_identifier] at hid
      | str s => simp [wf_identifier] at hid
      | arr xs => simp [wf_identifier] at hid

/-- The tail of one builder step (truthiness gate plus identifier loop)
equals the specification's per-entry fold, for a well-formed `identifier`
field. -/
theorem register_tail_eq (m : List (String × String)) (rkvs : List (String × Json))
    (fid : String)
    (hids : (match jLookup "identifier" rkvs with
             | none => true
             | some (.arr ids) => ids.all wf_identifier
             | some _ => false) = true) :
    (if !pyTruthy (Json.str fid) then pure m else do
      let identifiersJ ← pyGet (.obj rkvs) "identifier" (.arr [])
      let identifiers ← pyIter identifiersJ
      pyFoldlM (fun m identifier => do
        let systemJ ← pyGet identifier "system" (.str "")
        let valueJ ← pyGet identifier "value" (.str "")
        if pyTruthy systemJ && pyTruthy valueJ then
          pure (dictUpdStr m
            (pyStr (Json.str (objGetStr (.obj rkvs) "resourceType")) ++ "?identifier=" ++
              pyStr systemJ ++ "|" ++ pyStr valueJ)
            (pyStr (Json.str (objGetStr (.obj rkvs) "resourceType")) ++ "/" ++
              pyStr (Json.str fid)))
        else pure m) m identifiers : Option (List (String × String))) =
    some (if fid = "" then m
      else (identifier_pairs_spec (.obj rkvs)).foldl
        (fun m sv =>
          if sv.1 ≠ "" ∧ sv.2 ≠ "" then
            dictUpdStr m
              (objGetStr (.obj rkvs) "resourceType" ++ "?identifier=" ++ sv.1 ++ "|" ++ sv.2)
              (objGetStr (.obj rkvs) "resourceType" ++ "/" ++ fid)
          else m) m) := by
  by_cases hfe : fid = ""
  · subst hfe
    rw [if_pos (show (!pyTruthy (Json.str "")) = true by
        simp [pyTruthy, show "".isEmpty = true from rfl]), if_pos rfl]
    rfl
  · have hft : (!pyTruthy (Json.str fid)) = false := by
      simp only [pyTruthy, Bool.not_not]
      cases hE : fid.isEmpty
      · rfl
      · exact absurd ((String.isEmpty_iff fid).mp hE) hfe
    rw [if_neg (by rw [hft]; exact Bool.false_ne_true), if_neg hfe]
    cases hI : jLookup "identifier" rkvs with
    | none =>
        have hpg : pyGet (.obj rkvs) "identifier" (.arr []) = some (.arr []) := by
          simp [pyGet, hI]
        simp only [Option.bind_eq_bind, hpg, Option.some_bind, pyIter, pyFoldlM,
          identifier_pairs_spec, objGet, hI, List.foldl_nil]
    | some v =>
        rw [hI] at hids
        cases v with
        | arr ids =>
            have hpg : pyGet (.obj rkvs) "identifier" (.arr []) = some (.arr ids) := by
              simp [pyGet, hI]
            simp only [Option.bind_eq_bind, hpg, Option.some_bind, pyIter]
            have hr := register_ids_eq (.str (objGetStr (.obj rkvs) "resourceType"))
              (.str fid) ids hids m
            simp only [Option.bind_eq_bind] at hr
            rw [hr]
            simp only [identifier_pairs_spec, objGet, hI, List.foldl_map, pyStr]
        | null => exact absurd hids (by simp)
        | bool b => exact absurd hids (by simp)
        | num n => exact absurd hids (by simp)
        | str s => exact absurd hids (by simp)
        | obj kvs => exact absurd hids (by simp)

/-- Pointwise refinement: on a well-formed entry, the builder's per-entry
step succeeds and computes the specification's per-entry registrations. -/
theorem registerEntry_eq_spec (m : List (String × String)) (e : Json)
    (hwf : wf_entry e = true) :
    registerEntryIdentifiers m e = some (register_entry_spec m e) := by
  cases e with
  | obj kvs =>
      simp only [wf_entry, Bool.and_eq_true] at hwf
      obtain ⟨hfuW, hresW⟩ := hwf
      have main : ∀ rkvs : List (String × Json),
          pyGet (.obj kvs) "resource" (.obj []) = some (.obj rkvs) →
          (objGet (.obj kvs) "resource").getD (.obj []) = .obj rkvs →
          (match jLookup "resourceType" rkvs with
           | none => true | some (.str _) => true | some _ => false) = true →
          (match jLookup "id" rkvs with
           | none => true | some (.str _) => true | some _ => false) = true →
          (match jLookup "identifier" rkvs with
           | none => true
           | some (.arr ids) => ids.all wf_identifier
           | some _ => false) = true →
          registerEntryIdentifiers m (.obj kvs) =
            some (register_entry_spec m (.obj kvs)) := by
        intro rkvs hres hresS hrt hidW hids
        have hrtf := wf_str_field rkvs "resourceType" hrt
        have hfu := wf_str_field kvs "fullUrl" hfuW
        simp only [registerEntryIdentifiers, Option.bind_eq_bind, hres,
          Option.some_bind, hrtf, hfu, asStr]
        simp only [register_entry_spec, final_id_spec, identifier_pairs_spec, hresS]
        cases hu1 : strStartsWith (objGetStr (.obj kvs) "fullUrl") "urn:uuid:"
        · rw [if_neg Bool.false_ne_true, if_neg Bool.false_ne_true]
          cases hu2 : strContainsChar (objGetStr (.obj kvs) "fullUrl") '/'
          · rw [if_neg Bool.false_ne_true, if_neg Bool.false_ne_true]
            have hidf := wf_str_field rkvs "id" hidW
            simp only [Option.bind_eq_bind, hidf, Option.some_bind]
            have ht := register_tail_eq m rkvs (objGetStr (.obj rkvs) "id") hids
            simp only [Option.bind_eq_bind, identifier_pairs_spec] at ht
            exact ht
          · rw [if_pos rfl, if_pos rfl]
            simp only [Option.pure_def, Option.some_bind]
            have ht := register_tail_eq m rkvs
              ((strSplitOn (objGetStr (.obj kvs) "fullUrl") "/").getLastD "") hids
            simp only [Option.bind_eq_bind, identifier_pairs_spec] at ht
            exact ht
        · rw [if_pos rfl, if_pos rfl]
          simp only [Option.pure_def, Option.some_bind]
          have ht := register_tail_eq m rkvs
            (strReplace (objGetStr (.obj kvs) "fullUrl") "urn:uuid:" "") hids
          simp only [Option.bind_eq_bind, identifier_pairs_spec] at ht
          exact ht
      cases hR : jLookup "resource" kvs with
      | none =>
          exact main [] (by simp [pyGet, hR]) (by simp [objGet, hR]) rfl rfl rfl
      | some v =>
          rw [hR] at hresW
          cases v with
          | obj rkvs =>
              simp only [Bool.and_eq_true] at hresW
              exact main rkvs (by simp [pyGet, hR]) (by simp [objGet, hR])
                hresW.1.1 hresW.1.2 hresW.2
          | null => exact absurd hresW (by simp)
          | bool b => exact absurd hresW (by simp)
          | num n => exact absurd hresW (by simp)
          | str s => exact absurd hresW (by simp)
          | arr xs => exact absurd hresW (by simp)
  | null => simp [wf_entry] at hwf
  | bool b => simp [wf_entry] at hwf
  | num n => simp [wf_entry] at hwf
  | str s => simp [wf_entry] at hwf
  | arr xs => simp [wf_entry] at hwf

/-- A `pyFoldlM` whose step succeeds pointwise is the corresponding pure
`List.foldl`. -/
theorem pyFoldlM_eq_foldl {α σ : Type} (g : σ → α → Option σ) (f : σ → α → σ)
    (P : α → Prop) (hg : ∀ s a, P a → g s a = some (f s a)) :
    ∀ (xs : List α), (∀ a ∈ xs, P a) → ∀ s,
      pyFoldlM g s xs = some (xs.foldl f s) := by
  intro xs
  induction xs with
  | nil => intro _ s; rfl
  | cons x xs ih =>
      intro h s
      rw [pyFoldlM, List.foldl_cons]
      simp only [Option.bind_eq_bind, hg s x (h x (List.mem_cons_self x xs)),
        Option.some_bind]
      exact ih (fun a ha => h a (List.mem_cons_of_mem x ha)) (f s x)

/-- C6 (corrected). For every well-formed bundle, the Reference Map Builder
succeeds and returns exactly the specification map: for every entry's
entity and every declared alternate identifier with non-empty system and
value, when the entry's final id is non-empty it registers
`kind?identifier=system|value -> kind/final_id`, last write wins; the final
id is the `fullUrl` with every `urn:uuid:` occurrence removed when it
starts with that prefix, OTHERWISE the segment after the last `/` of a
`fullUrl` that contains one, and only otherwise the entity's own declared
id — the claim's two-branch rule (temporary id, else declared id) misses
the `/`-segment branch, which the counterexample exhibits. -/
theorem C6_builder_registers_by_final_id (bundle : Json)
    (hwf : wf_bundle bundle = true) :
    build_conditional_reference_map bundle = some (build_ref_map_spec bundle) := by
  cases bundle with
  | obj kvs =>
      rw [wf_bundle] at hwf
      cases hE : jLookup "entry" kvs with
      | none =>
          have hpg : pyGet (.obj kvs) "entry" (.arr []) = some (.arr []) := by
            simp [pyGet, hE]
          simp only [build_conditional_reference_map, Option.bind_eq_bind, hpg,
            Option.some_bind, pyIter, pyFoldlM, build_ref_map_spec, objGet, hE,
            List.foldl_nil]
      | some v =>
          rw [hE] at hwf
          cases v with
          | arr es =>
              have hpg : pyGet (.obj kvs) "entry" (.arr []) = some (.arr es) := by
                simp [pyGet, hE]
              simp only [build_conditional_reference_map, Option.bind_eq_bind, hpg,
                Option.some_bind, pyIter, build_ref_map_spec, objGet, hE]
              exact pyFoldlM_eq_foldl registerEntryIdentifiers register_entry_spec
                (fun e => wf_entry e = true)
                (fun m e he => registerEntry_eq_spec m e he)
                es (fun e he => by
                  rw [List.all_eq_true] at hwf
                  exact hwf e he) []
          | null => exact absurd hwf (by simp)
          | bool b => exact absurd hwf (by simp)
          | num n => exact absurd hwf (by simp)
          | str s => exact absurd hwf (by simp)
          | obj kvs2 => exact absurd hwf (by simp)
  | null => simp [wf_bundle] at hwf
  | bool b => simp [wf_bundle] at hwf
  | num n => simp [wf_bundle] at hwf
  | str s => simp [wf_bundle] at hwf
  | arr xs => simp [wf_bundle] at hwf

/-- C6 counterexample to the original claim: the entry has no `urn:uuid:`
temporary id, so per the claim the final id is the entity's declared id
`xyz` and the map should send the conditional key to `Patient/xyz`; the
code instead takes the segment after the last `/` of the `fullUrl`
`Patient/abc` and registers `Patient/abc`. -/
theorem C6_final_id_counterexample :
    build_conditional_reference_map (.obj [("entry", .arr [.obj
      [("fullUrl", .str "Patient/abc"),
       ("resource", .obj
         [("resourceType", .str "Patient"),
          ("id", .str "xyz"),
          ("identifier", .arr [.obj
            [("system", .str "s"), ("value", .str "v")]])])]])]) =
      some [("Patient?identifier=s|v", "Patient/abc")] ∧
    "Patient/abc" ≠ "Patient/xyz" := by
  exact ⟨rfl, by decide⟩

/-- Witness: the builder theorem applied to a concrete well-formed bundle
with a `urn:uuid:` temporary id. -/
theorem C6_builder_registers_by_final_id_witness :
    wf_bundle (.obj [("entry", .arr [.obj
      [("fullUrl", .str "urn:uuid:1234"),
       ("resource", .obj
         [("resourceType", .str "Patient"),
          ("id", .str "p1"),
          ("identifier", .arr [.obj
            [("system", .str "http://hl7.org/fhir/sid/us-ssn"),
             ("value", .str "999-99-9999")]])])]])]) = true ∧
    build_conditional_reference_map (.obj [("entry", .arr [.obj
      [("fullUrl", .str "urn:uuid:1234"),
       ("resource", .obj
         [("resourceType", .str "Patient"),
          ("id", .str "p1"),
          ("identifier", .arr [.obj
            [("system", .str "http://hl7.org/fhir/sid/us-ssn"),
             ("value", .str "999-99-9999")]])])]])]) =
      some (build_ref_map_spec (.obj [("entry", .arr [.obj
      [("fullUrl", .str "urn:uuid:1234"),
       ("resource", .obj
         [("resourceType", .str "Patient"),
          ("id", .str "p1"),
          ("identifier", .arr [.obj
            [("system", .str "http://hl7.org/fhir/sid/us-ssn"),
             ("value", .str "999-99-9999")]])])]])])) :=
  ⟨rfl, C6_builder_registers_by_final_id _ rfl⟩

/-! ## Eligibility invariance under the entry-rewrite pipeline (C2) -/

/-- The per-entry body of `has_qualifying_condition`'s loop. -/
def entry_qualifies (icd sno : List String) (entry : Json) : Option Bool := do
  let resource ← pyGet entry "resource" (.obj [])
  resource_qualifies icd sno resource

/-- The composite per-resource rewrite of the transaction loop
(load_fhir.py:878-880): `urn:uuid:` normalization followed by
conditional-to-direct substitution. -/
def rwres (m : List (String × String)) (r : Json) : Json :=
  transform_conditional_to_direct (transform_references_in_resource r) m

theorem tcdL_eq_map (m : List (String × String)) :
    ∀ xs : List Json, tcdL xs m = xs.map (fun x => transform_conditional_to_direct x m)
  | [] => rfl
  | x :: xs => by rw [tcdL, List.map_cons, tcdL_eq_map m xs]

theorem turL_eq_map :
    ∀ xs : List Json, turL xs = xs.map transform_references_in_resource
  | [] => rfl
  | x :: xs => by rw [turL, List.map_cons, turL_eq_map xs]

/-- Both rewriters keep every key of a mapping in place. -/
theorem tcdKV_keys (m : List (String × String)) :
    ∀ kvs : List (String × Json), (tcdKV kvs m).map Prod.fst = kvs.map Prod.fst
  | [] => rfl
  | (k, v) :: rest => by rw [tcdKV, List.map_cons, List.map_cons, tcdKV_keys m rest]

theorem turKV_keys :
    ∀ kvs : List (String × Json), (turKV kvs).map Prod.fst = kvs.map Prod.fst
  | [] => rfl
  | (k, v) :: rest => by rw [turKV, List.map_cons, List.map_cons, turKV_keys rest]

/-- Looking up a key other than `reference` after conditional substitution
finds the recursively rewritten original value. -/
theorem tcdKV_lookup (m : List (String × String)) (k : String) (hk : k ≠ "reference") :
    ∀ kvs : List (String × Json),
      jLookup k (tcdKV kvs m) =
        (jLookup k kvs).map (fun v => transform_conditional_to_direct v m)
  | [] => rfl
  | (k', v') :: rest => by
      rw [tcdKV, jLookup, jLookup]
      by_cases he : k' = k
      · subst he
        rw [if_pos (beq_self_eq_true k'), if_pos (beq_self_eq_true k'), Option.map_some']
        have hr : (k' == "reference") = false := by
          rw [beq_eq_false_iff_ne]; exact hk
        rw [hr, Bool.false_and, if_neg Bool.false_ne_true]
      · rw [if_neg (by rw [beq_iff_eq]; exact he), if_neg (by rw [beq_iff_eq]; exact he)]
        exact tcdKV_lookup m k hk rest

/-- Looking up a key other than `reference` after `urn:uuid:` normalization
finds the recursively rewritten original value. -/
theorem turKV_lookup (k : String) (hk : k ≠ "reference") :
    ∀ kvs : List (String × Json),
      jLookup k (turKV kvs) =
        (jLookup k kvs).map transform_references_in_resource
  | [] => rfl
  | (k', v') :: rest => by
      rw [turKV, jLookup, jLookup]
      by_cases he : k' = k
      · subst he
        rw [if_pos (beq_self_eq_true k'), if_pos (beq_self_eq_true k'), Option.map_some']
        have hr : (k' == "reference") = false := by
          rw [beq_eq_false_iff_ne]; exact hk
        rw [hr, Bool.false_and, if_neg Bool.false_ne_true]
      · rw [if_neg (by rw [beq_iff_eq]; exact he), if_neg (by rw [beq_iff_eq]; exact he)]
        exact turKV_lookup k hk rest

theorem rwres_null (m : List (String × String)) : rwres m .null = .null := rfl

theorem rwres_bool (m : List (String × String)) (b : Bool) :
    rwres m (.bool b) = .bool b := rfl

theorem rwres_num (m : List (String × String)) (n : Int) :
    rwres m (.num n) = .num n := rfl

theorem rwres_str (m : List (String × String)) (s : String) :
    rwres m (.str s) = .str s := rfl

theorem rwres_obj (m : List (String × String)) (kvs : List (String × Json)) :
    rwres m (.obj kvs) = .obj (tcdKV (turKV kvs) m) := rfl

theorem rwres_arr (m : List (String × String)) (xs : List Json) :
    rwres m (.arr xs) = .arr (xs.map (rwres m)) := by
  show Json.arr (tcdL (turL xs) m) = _
  rw [tcdL_eq_map, turL_eq_map, List.map_map]
  rfl

/-- Composite lookup through both rewriters. -/
theorem rwres_lookup (m : List (String × String)) (k : String) (hk : k ≠ "reference")
    (kvs : List (String × Json)) :
    jLookup k (tcdKV (turKV kvs) m) = (jLookup k kvs).map (rwres m) := by
  rw [tcdKV_lookup m k hk, turKV_lookup k hk, Option.map_map]
  rfl

/-- `d.get(k, default)` commutes with the composite rewrite for every key
other than `reference` and every rewrite-fixed default. -/
theorem pyGet_rwres (m : List (String × String)) (k : String) (d : Json)
    (hk : k ≠ "reference") (hd : rwres m d = d) (r : Json) :
    pyGet (rwres m r) k d = (pyGet r k d).map (rwres m) := by
  cases r with
  | obj kvs =>
      rw [rwres_obj]
      show some ((jLookup k (tcdKV (turKV kvs) m)).getD d) =
        (some ((jLookup k kvs).getD d)).map (rwres m)
      rw [rwres_lookup m k hk, Option.map_some']
      cases jLookup k kvs with
      | none => exact congrArg some hd.symm
      | some v => rfl
  | null => rfl
  | bool b => rfl
  | num n => rfl
  | str s => rfl
  | arr xs => rw [rwres_arr]; rfl

/-- Iteration commutes with the composite rewrite: list elements are
rewritten pointwise, string characters and mapping keys are unchanged
(and are fixed points of the rewrite). -/
theorem pyIter_rwres (m : List (String × String)) (r : Json) :
    pyIter (rwres m r) = (pyIter r).map (List.map (rwres m)) := by
  cases r with
  | arr xs => rw [rwres_arr]; rfl
  | str s =>
      show some _ = some _
      simp only [List.map_map]
      rfl
  | obj kvs =>
      rw [rwres_obj]
      show some ((tcdKV (turKV kvs) m).map (fun kv => Json.str kv.1)) =
        some ((kvs.map (fun kv => Json.str kv.1)).map (rwres m))
      have h1 : (tcdKV (turKV kvs) m).map (fun kv => Json.str kv.1) =
          ((tcdKV (turKV kvs) m).map Prod.fst).map Json.str := by
        rw [List.map_map]; rfl
      have h2 : (kvs.map (fun kv => Json.str kv.1)).map (rwres m) =
          (kvs.map Prod.fst).map Json.str := by
        rw [List.map_map, List.map_map]; rfl
      rw [h1, h2, tcdKV_keys, turKV_keys]
  | null => rfl
  | bool b => rfl
  | num n => rfl

/-- `str()`-coercion test commutes with the composite rewrite. -/
theorem asStr_rwres (m : List (String × String)) (r : Json) :
    asStr (rwres m r) = asStr r := by
  cases r with
  | str s => rfl
  | null => rfl
  | bool b => rfl
  | num n => rfl
  | arr xs => rw [rwres_arr]; rfl
  | obj kvs => rw [rwres_obj]; rfl

/-- Comparison with a string literal is invariant under the composite
rewrite. -/
theorem jsonEqStrLit_rwres (m : List (String × String)) (r : Json) (lit : String) :
    jsonEqStrLit (rwres m r) lit = jsonEqStrLit r lit := by
  cases r with
  | str s => rfl
  | null => rfl
  | bool b => rfl
  | num n => rfl
  | arr xs => rw [rwres_arr]; rfl
  | obj kvs => rw [rwres_obj]; rfl

/-- Membership in a string list is invariant under the composite rewrite. -/
theorem jsonMemStrList_rwres (m : List (String × String)) (r : Json) (l : List String) :
    jsonMemStrList (rwres m r) l = jsonMemStrList r l := by
  cases r with
  | str s => rfl
  | null => rfl
  | bool b => rfl
  | num n => rfl
  | arr xs => rw [rwres_arr]; rfl
  | obj kvs => rw [rwres_obj]; rfl

/-- The ICD-10 prefix-match loop is invariant under the composite rewrite
of its scrutinee. -/
theorem prefix_match_any_rwres (m : List (String × String)) (r : Json) :
    ∀ qcs : List String, prefix_match_any (rwres m r) qcs = prefix_match_any r qcs := by
  intro qcs
  cases qcs with
  | nil => rfl
  | cons qc rest =>
      cases r with
      | str s => rw [rwres_str]
      | null => rfl
      | bool b => rfl
      | num n => rfl
      | arr xs => rw [rwres_arr]; rfl
      | obj kvs => rw [rwres_obj]; rfl

/-- A short-circuit search over a pointwise-rewritten list under a
rewrite-invariant predicate. -/
theorem anyM_map_congr (p q : Json → Option Bool) (g : Json → Json)
    (h : ∀ x, p (g x) = q x) :
    ∀ l : List Json, anyM p (l.map g) = anyM q l := by
  intro l
  induction l with
  | nil => rfl
  | cons x xs ih =>
      rw [List.map_cons, anyM, anyM, h x]
      cases q x with
      | none => rfl
      | some b =>
          simp only [Option.bind_eq_bind, Option.some_bind]
          cases b
          · simp only [Bool.false_eq_true, if_neg Bool.false_ne_true]
            exact ih
          · rfl

/-- One coding check is invariant under the composite rewrite: it reads
only `code` and `system`, whose string values the rewrite fixes. -/
theorem check_coding_rwres (icd sno : List String) (m : List (String × String))
    (c : Json) :
    check_coding icd sno (rwres m c) = check_coding icd sno c := by
  simp only [check_coding, Option.bind_eq_bind]
  rw [pyGet_rwres m "code" (.str "") (by decide) rfl c,
      pyGet_rwres m "system" (.str "") (by decide) rfl c]
  cases pyGet c "code" (.str "") with
  | none => rfl
  | some cv =>
      cases pyGet c "system" (.str "") with
      | none => rfl
      | some sv =>
          simp only [Option.map_some', Option.some_bind, asStr_rwres,
            jsonMemStrList_rwres, prefix_match_any_rwres]

/-- A resource qualifies after the composite rewrite exactly when it
qualified before (same `Option`-valued outcome, raising included). -/
theorem resource_qualifies_rwres (icd sno : List String) (m : List (String × String))
    (r : Json) :
    resource_qualifies icd sno (rwres m r) = resource_qualifies icd sno r := by
  simp only [resource_qualifies, Option.bind_eq_bind]
  rw [pyGet_rwres m "resourceType" .null (by decide) rfl r,
      pyGet_rwres m "code" (.obj []) (by decide) rfl r]
  cases pyGet r "resourceType" .null with
  | none => rfl
  | some rt =>
      simp only [Option.map_some', Option.some_bind, jsonEqStrLit_rwres]
      by_cases h1 : jsonEqStrLit rt "Condition" = true
      · rw [if_pos h1, if_pos h1]
        cases pyGet r "code" (.obj []) with
        | none => rfl
        | some code =>
            simp only [Option.map_some', Option.some_bind]
            rw [pyGet_rwres m "coding" (.arr []) (by decide) rfl code]
            cases pyGet code "coding" (.arr []) with
            | none => rfl
            | some codingJ =>
                simp only [Option.map_some', Option.some_bind]
                rw [pyIter_rwres]
                cases pyIter codingJ with
                | none => rfl
                | some codings =>
                    simp only [Option.map_some', Option.some_bind]
                    exact anyM_map_congr _ _ (rwres m)
                      (fun x => check_coding_rwres icd sno m x) codings
      · rw [if_neg h1, if_neg h1]

/-- Setting a key finds it again. -/
theorem jLookup_dictSetKV_self (k : String) (v : Json) :
    ∀ kvs : List (String × Json), jLookup k (dictSetKV kvs k v) = some v
  | [] => by rw [dictSetKV, jLookup, if_pos (beq_self_eq_true k)]
  | (k', v') :: rest => by
      rw [dictSetKV]
      by_cases he : k' = k
      · rw [if_pos (by rw [beq_iff_eq]; exact he), jLookup,
          if_pos (beq_self_eq_true k)]
      · rw [if_neg (by rw [beq_iff_eq]; exact he), jLookup,
          if_neg (by rw [beq_iff_eq]; exact he)]
        exact jLookup_dictSetKV_self k v rest

/-- Setting one key leaves every other lookup unchanged. -/
theorem jLookup_dictSetKV_ne (k k2 : String) (v : Json) (h : k2 ≠ k) :
    ∀ kvs : List (String × Json), jLookup k2 (dictSetKV kvs k v) = jLookup k2 kvs
  | [] => by
      rw [dictSetKV]
      simp only [jLookup]
      rw [if_neg (by rw [beq_iff_eq]; exact fun hx => h hx.symm)]
  | (k', v') :: rest => by
      rw [dictSetKV]
      by_cases he : k' = k
      · rw [if_pos (by rw [beq_iff_eq]; exact he)]
        simp only [jLookup]
        rw [if_neg (by rw [beq_iff_eq]; exact fun hx => h hx.symm)]
        subst he
        rw [if_neg (by rw [beq_iff_eq]; exact fun hx => h hx.symm)]
      · rw [if_neg (by rw [beq_iff_eq]; exact he), jLookup, jLookup]
        by_cases he2 : k' = k2
        · rw [if_pos (by rw [beq_iff_eq]; exact he2),
            if_pos (by rw [beq_iff_eq]; exact he2)]
        · rw [if_neg (by rw [beq_iff_eq]; exact he2),
            if_neg (by rw [beq_iff_eq]; exact he2)]
          exact jLookup_dictSetKV_ne k k2 v h rest

/-- `d.get` through a `d[k] = v` write to a different key. -/
theorem pyGet_dictSet_ne (kvs : List (String × Json)) (k : String) (v : Json)
    (k2 : String) (d : Json) (h : k2 ≠ k) :
    pyGet (dictSet (.obj kvs) k v) k2 d = pyGet (.obj kvs) k2 d := by
  show some _ = some _
  rw [jLookup_dictSetKV_ne k k2 v h]

/-- Writing the resource id does not change whether it qualifies. -/
theorem resource_qualifies_dictSet_id (icd sno : List String)
    (rkvs : List (String × Json)) (x : Json) :
    resource_qualifies icd sno (dictSet (.obj rkvs) "id" x) =
      resource_qualifies icd sno (.obj rkvs) := by
  simp only [resource_qualifies, Option.bind_eq_bind]
  rw [pyGet_dictSet_ne rkvs "id" x "resourceType" .null (by decide),
    pyGet_dictSet_ne rkvs "id" x "code" (.obj []) (by decide)]

/-- The transaction-loop rewrite of one entry does not change whether the
entry carries a qualifying condition (same outcome, raising included). -/
theorem rewrite_entry_qualifies (icd sno : List String) (m : List (String × String))
    (e e' : Json) (h : rewrite_entry m e = some e') :
    entry_qualifies icd sno e' = entry_qualifies icd sno e := by
  simp only [rewrite_entry, Option.bind_eq_bind, Option.pure_def] at h
  obtain ⟨resource, hres, h⟩ := Option.bind_eq_some.mp h
  obtain ⟨rtJ, hrt, h⟩ := Option.bind_eq_some.mp h
  obtain ⟨fuJ, hfu, h⟩ := Option.bind_eq_some.mp h
  obtain ⟨fu, hfus, h⟩ := Option.bind_eq_some.mp h
  have main : ∀ rid : Json,
      e' = dictSet (dictSet e "resource"
        (transform_conditional_to_direct (transform_references_in_resource
          (if pyTruthy rid = true then dictSet resource "id" rid else resource)) m))
        "request" (.obj [("method", .str "PUT"),
          ("url", .str (if pyTruthy rid = true
            then pyStr rtJ ++ "/" ++ pyStr rid else pyStr rtJ))]) →
      entry_qualifies icd sno e' = entry_qualifies icd sno e := by
    intro rid he'
    subst he'
    cases e with
      | obj kvs =>
          have h1 : pyGet (dictSet (dictSet (.obj kvs) "resource"
              (transform_conditional_to_direct (transform_references_in_resource
                (if pyTruthy rid = true then dictSet resource "id" rid else resource)) m))
              "request" (.obj [("method", .str "PUT"),
                ("url", .str (if pyTruthy rid = true
                  then pyStr rtJ ++ "/" ++ pyStr rid else pyStr rtJ))]))
              "resource" (.obj []) =
              some (transform_conditional_to_direct (transform_references_in_resource
                (if pyTruthy rid = true then dictSet resource "id" rid else resource)) m) := by
            show some _ = some _
            rw [jLookup_dictSetKV_ne "request" "resource" _ (by decide),
              jLookup_dictSetKV_self]
            rfl
          simp only [entry_qualifies, Option.bind_eq_bind, h1, hres, Option.some_bind]
          have hrw := resource_qualifies_rwres icd sno m
            (if pyTruthy rid = true then dictSet resource "id" rid else resource)
          simp only [rwres] at hrw
          rw [hrw]
          by_cases ht : pyTruthy rid = true
          · rw [if_pos ht]
            cases resource with
            | obj rkvs => exact resource_qualifies_dictSet_id icd sno rkvs rid
            | null => exact absurd hrt (by simp [pyGet])
            | bool b => exact absurd hrt (by simp [pyGet])
            | num n => exact absurd hrt (by simp [pyGet])
            | str s => exact absurd hrt (by simp [pyGet])
            | arr xs => exact absurd hrt (by simp [pyGet])
          · rw [if_neg ht]
      | null => exact absurd hres (by simp [pyGet])
      | bool b => exact absurd hres (by simp [pyGet])
      | num n => exact absurd hres (by simp [pyGet])
      | str s => exact absurd hres (by simp [pyGet])
      | arr xs => exact absurd hres (by simp [pyGet])
  split at h
  · simp only [Option.some_bind, Option.some.injEq] at h
    exact main _ h.symm
  · split at h
    · simp only [Option.some_bind, Option.some.injEq] at h
      exact main _ h.symm
    · obtain ⟨rid, hrid2, h⟩ := Option.bind_eq_some.mp h
      rw [Option.some.injEq] at h
      exact main rid h.symm

/-- A short-circuit search over a successfully mapped list, when the map
step preserves the searched predicate pointwise. -/
theorem anyM_pyMapM (f : Json → Option Bool) (g : Json → Option Json)
    (hfg : ∀ x y, g x = some y → f y = f x) :
    ∀ (l l' : List Json), pyMapM g l = some l' → anyM f l' = anyM f l := by
  intro l
  induction l with
  | nil => intro l' h; cases h; rfl
  | cons x xs ih =>
      intro l' h
      simp only [pyMapM, Option.bind_eq_bind, Option.pure_def] at h
      obtain ⟨y, hy, h⟩ := Option.bind_eq_some.mp h
      obtain ⟨ys, hys, h⟩ := Option.bind_eq_some.mp h
      rw [Option.some.injEq] at h
      subst h
      rw [anyM, anyM, hfg x y hy]
      cases f x with
      | none => rfl
      | some b =>
          simp only [Option.bind_eq_bind, Option.some_bind]
          cases b
          · simp only [Bool.false_eq_true, if_neg Bool.false_ne_true]
            exact ih ys hys
          · rfl

/-- Elements on which the search step returns `False` can be filtered out
without changing the search's outcome. -/
theorem anyM_filter_false (f : Json → Option Bool) (P : Json → Bool) :
    ∀ l : List Json, (∀ x ∈ l, P x = false → f x = some false) →
      anyM f l = anyM f (l.filter P) := by
  intro l
  induction l with
  | nil => intro _; rfl
  | cons x xs ih =>
      intro h
      rw [List.filter_cons]
      cases hP : P x with
      | true =>
          rw [if_pos rfl, anyM, anyM]
          cases f x with
          | none => rfl
          | some b =>
              simp only [Option.bind_eq_bind, Option.some_bind]
              cases b
              · simp only [Bool.false_eq_true, if_neg Bool.false_ne_true]
                exact ih (fun a ha hPa => h a (List.mem_cons_of_mem x ha) hPa)
              · rfl
      | false =>
          rw [if_neg Bool.false_ne_true, anyM,
            h x (List.mem_cons_self x xs) hP]
          simp only [Option.bind_eq_bind, Option.some_bind, Bool.false_eq_true,
            if_neg Bool.false_ne_true]
          exact ih (fun a ha hPa => h a (List.mem_cons_of_mem x ha) hPa)

/-- A prefix on which the search step returns `False` can be dropped. -/
theorem anyM_append_false (f : Json → Option Bool) :
    ∀ (pre l : List Json), (∀ x ∈ pre, f x = some false) →
      anyM f (pre ++ l) = anyM f l := by
  intro pre
  induction pre with
  | nil => intro l _; rfl
  | cons x xs ih =>
      intro l h
      rw [List.cons_append, anyM, h x (List.mem_cons_self x xs)]
      simp only [Option.bind_eq_bind, Option.some_bind, Bool.false_eq_true,
        if_neg Bool.false_ne_true]
      exact ih l (fun a ha => h a (List.mem_cons_of_mem x ha))

/-- An entry whose precedence is a table value (not the default 99) is a
listed foundational kind, hence not a `Condition` and never qualifying. -/
theorem foundational_entry_not_condition (icd sno : List String) (e : Json) (k : Nat)
    (hk : get_order e = some k) (hne : k ≠ 99) :
    entry_qualifies icd sno e = some false := by
  simp only [get_order, Option.bind_eq_bind] at hk
  obtain ⟨resource, hres, hk⟩ := Option.bind_eq_some.mp hk
  obtain ⟨rtJ, hrt, hk⟩ := Option.bind_eq_some.mp hk
  cases rtJ with
  | str s =>
      replace hk : some ((List.lookup s type_order).getD 99) = some k := hk
      rw [Option.some.injEq] at hk
      cases hl : List.lookup s type_order with
      | none => rw [hl] at hk; exact absurd hk.symm (by simpa using hne)
      | some k0 =>
          have hsc : s ≠ "Condition" := by
            intro hx
            subst hx
            rw [show List.lookup "Condition" type_order = (none : Option Nat) from rfl]
              at hl
            cases hl
          cases resource with
          | obj rkvs =>
              have hgd : (jLookup "resourceType" rkvs).getD (.str "") = .str s := by
                have h2 : some ((jLookup "resourceType" rkvs).getD (.str "")) =
                    some (.str s) := hrt
                injection h2
              simp only [entry_qualifies, Option.bind_eq_bind, hres, Option.some_bind,
                resource_qualifies]
              cases hLk : jLookup "resourceType" rkvs with
              | none =>
                  rw [hLk] at hgd
                  have hs0 : "" = s := by injection hgd
                  subst hs0
                  rw [show List.lookup "" type_order = (none : Option Nat) from rfl] at hl
                  cases hl
              | some v =>
                  rw [hLk] at hgd
                  subst hgd
                  have hpg : pyGet (.obj rkvs) "resourceType" .null = some (.str s) := by
                    show some _ = some _
                    rw [hLk]
                    rfl
                  rw [hpg]
                  simp only [Option.some_bind]
                  rw [if_neg (fun hx => hsc (by
                    rw [show jsonEqStrLit (.str s) "Condition" = (s == "Condition")
                      from rfl, beq_iff_eq] at hx
                    exact hx))]
                  rfl
          | null => exact absurd hrt (by simp [pyGet])
          | bool b => exact absurd hrt (by simp [pyGet])
          | num n => exact absurd hrt (by simp [pyGet])
          | str s2 => exact absurd hrt (by simp [pyGet])
          | arr xs => exact absurd hrt (by simp [pyGet])
  | arr xs => exact absurd (show (none : Option Nat) = some k from hk) (by simp)
  | obj kvs => exact absurd (show (none : Option Nat) = some k from hk) (by simp)
  | null =>
      replace hk : some 99 = some k := hk
      rw [Option.some.injEq] at hk
      exact absurd hk.symm hne
  | bool b =>
      replace hk : some 99 = some k := hk
      rw [Option.some.injEq] at hk
      exact absurd hk.symm hne
  | num n =>
      replace hk : some 99 = some k := hk
      rw [Option.some.injEq] at hk
      exact absurd hk.symm hne

/-- A resource whose first field declares a non-`Condition` kind never
qualifies. -/
theorem rq_rt_head (icd sno : List String) (kind : String)
    (hk : (kind == "Condition") = false) (rest : List (String × Json)) :
    resource_qualifies icd sno (.obj (("resourceType", .str kind) :: rest)) =
      some false := by
  simp only [resource_qualifies, Option.bind_eq_bind]
  have hpg : pyGet (.obj (("resourceType", .str kind) :: rest)) "resourceType" .null =
      some (.str kind) := by
    show some _ = some _
    rw [jLookup, if_pos (beq_self_eq_true "resourceType")]
    rfl
  rw [hpg]
  simp only [Option.some_bind]
  rw [if_neg (by
    rw [show jsonEqStrLit (.str kind) "Condition" = (kind == "Condition") from rfl, hk]
    exact Bool.false_ne_true)]
  rfl

/-- Synthesized Practitioner stubs never qualify. -/
theorem create_practitioner_not_condition (icd sno : List String) (npi : String) :
    resource_qualifies icd sno (create_practitioner_from_npi npi) = some false :=
  rq_rt_head icd sno "Practitioner" rfl _

/-- Synthesized Location stubs never qualify. -/
theorem create_location_not_condition (icd sno : List String) (ref : String) (j : Json)
    (h : create_location_from_ref ref = some j) :
    resource_qualifies icd sno j = some false := by
  simp only [create_location_from_ref] at h
  split at h
  · exact absurd h (by simp)
  · split at h
    · split at h
      · exact absurd h (by simp)
      · split at h
        · rw [Option.some.injEq] at h
          subst h
          exact rq_rt_head icd sno "Location" rfl _
        · exact absurd h (by simp)
    · exact absurd h (by simp)

/-- Synthesized Organization stubs never qualify. -/
theorem create_organization_not_condition (icd sno : List String) (ref : String)
    (j : Json) (h : create_organization_from_ref ref = some j) :
    resource_qualifies icd sno j = some false := by
  simp only [create_organization_from_ref] at h
  split at h
  · exact absurd h (by simp)
  · split at h
    · split at h
      · exact absurd h (by simp)
      · split at h
        · rw [Option.some.injEq] at h
          subst h
          exact rq_rt_head icd sno "Organization" rfl _
        · exact absurd h (by simp)
    · exact absurd h (by simp)

/-- An injected stub entry wraps a never-qualifying resource. -/
theorem entry_qualifies_stub (icd sno : List String) (u res : Json)
    (hres : resource_qualifies icd sno res = some false) :
    entry_qualifies icd sno (.obj [("fullUrl", u), ("resource", res)]) = some false := by
  simp only [entry_qualifies, Option.bind_eq_bind]
  have hpg : pyGet (.obj [("fullUrl", u), ("resource", res)]) "resource" (.obj []) =
      some res := by
    show some _ = some _
    simp only [jLookup]
    rw [if_neg (by decide), if_pos (beq_self_eq_true "resource")]
    rfl
  rw [hpg]
  simp only [Option.some_bind]
  exact hres

/-- Prepending entries that do not qualify leaves the bundle's
qualifying-condition outcome unchanged. -/
theorem hqc_prepend (icd sno : List String) (kvs : List (String × Json))
    (xs pre : List Json)
    (hent : pyGet (.obj kvs) "entry" (.arr []) = some (.arr xs))
    (hpre : ∀ x ∈ pre, entry_qualifies icd sno x = some false) :
    has_qualifying_condition icd sno (dictSet (.obj kvs) "entry" (.arr (pre ++ xs))) =
      has_qualifying_condition icd sno (.obj kvs) := by
  have hb1 : pyGet (dictSet (.obj kvs) "entry" (.arr (pre ++ xs))) "entry" (.arr []) =
      some (.arr (pre ++ xs)) := by
    show some _ = some _
    rw [jLookup_dictSetKV_self]
    rfl
  simp only [has_qualifying_condition, Option.bind_eq_bind, hb1, hent,
    Option.some_bind, pyIter]
  exact anyM_append_false _ pre xs hpre

/-- Stub injection does not change whether the bundle carries a qualifying
condition: the prepended stubs are Organization/Practitioner/Location
entries, and the original entries are kept verbatim. -/
theorem inject_hqc (icd sno : List String) (b b1 : Json)
    (h : inject_referenced_resources b = some b1) :
    has_qualifying_condition icd sno b1 = has_qualifying_condition icd sno b := by
  simp only [inject_referenced_resources, Option.bind_eq_bind, Option.pure_def] at h
  obtain ⟨entriesJ, hent, h⟩ := Option.bind_eq_some.mp h
  obtain ⟨entries, hiter, h⟩ := Option.bind_eq_some.mp h
  obtain ⟨refs, hrefs, h⟩ := Option.bind_eq_some.mp h
  split at h
  · rw [Option.some.injEq] at h
    subst h
    rfl
  · cases entriesJ with
    | arr xs =>
        simp only [Option.some.injEq] at h
        subst h
        cases b with
        | obj kvs =>
            refine hqc_prepend icd sno kvs xs _ hent ?_
            intro x hx
            rcases List.mem_append.mp hx with hx | hx
            · rcases List.mem_append.mp hx with hx | hx
              · obtain ⟨ref, href, hx⟩ := List.mem_filterMap.mp hx
                obtain ⟨org, horg, hx⟩ := Option.map_eq_some'.mp hx
                subst hx
                exact entry_qualifies_stub icd sno _ org
                  (create_organization_not_condition icd sno ref org horg)
              · obtain ⟨npi, hnpi, hx⟩ := List.mem_map.mp hx
                subst hx
                exact entry_qualifies_stub icd sno _ _
                  (create_practitioner_not_condition icd sno npi)
            · obtain ⟨ref, href, hx⟩ := List.mem_filterMap.mp hx
              obtain ⟨loc, hloc, hx⟩ := Option.map_eq_some'.mp hx
              subst hx
              exact entry_qualifies_stub icd sno _ loc
                (create_location_not_condition icd sno ref loc hloc)
        | null => exact absurd hent (by simp [pyGet])
        | bool b2 => exact absurd hent (by simp [pyGet])
        | num n => exact absurd hent (by simp [pyGet])
        | str s => exact absurd hent (by simp [pyGet])
        | arr xs2 => exact absurd hent (by simp [pyGet])
    | null => exact absurd h (by simp)
    | bool b2 => exact absurd h (by simp)
    | num n => exact absurd h (by simp)
    | str s => exact absurd h (by simp)
    | obj kvs2 => exact absurd h (by simp)

/-- Reordering does not change whether the bundle carries a qualifying
condition: entries of listed foundational kinds never qualify, and the
stable sort keeps the default-precedence entries (every `Condition` among
them) in their original relative order. -/
theorem reorder_hqc (icd sno : List String) (b b2 : Json)
    (h : reorder_bundle_entries b = some b2) :
    has_qualifying_condition icd sno b2 = has_qualifying_condition icd sno b := by
  simp only [reorder_bundle_entries, Option.bind_eq_bind, Option.pure_def] at h
  obtain ⟨entriesJ, hent, h⟩ := Option.bind_eq_some.mp h
  obtain ⟨entries, hiter, h⟩ := Option.bind_eq_some.mp h
  obtain ⟨sorted, hsort, h⟩ := Option.bind_eq_some.mp h
  rw [Option.some.injEq] at h
  subst h
  obtain ⟨hperm, hfilt, hsorted, hkeys⟩ := pySortedByKey_spec get_order entries sorted hsort
  cases b with
  | obj kvs =>
      have hb2 : pyGet (dictSet (.obj kvs) "entry" (.arr sorted)) "entry" (.arr []) =
          some (.arr sorted) := by
        show some _ = some _
        rw [jLookup_dictSetKV_self]
        rfl
      simp only [has_qualifying_condition, Option.bind_eq_bind, hb2, hent,
        Option.some_bind, hiter]
      rw [show pyIter (Json.arr sorted) = some sorted from rfl]
      simp only [Option.some_bind]
      have hfalse : ∀ x ∈ sorted, (fun e => decide (get_order e = some 99)) x = false →
          entry_qualifies icd sno x = some false := by
        intro x hx hPx
        obtain ⟨k, hk⟩ := hkeys x hx
        refine foundational_entry_not_condition icd sno x k hk ?_
        intro hk99
        subst hk99
        exact absurd hk (by simpa using hPx)
      have hfalse2 : ∀ x ∈ entries, (fun e => decide (get_order e = some 99)) x = false →
          entry_qualifies icd sno x = some false := by
        intro x hx hPx
        exact hfalse x (hperm.mem_iff.mpr hx) hPx
      show anyM (entry_qualifies icd sno) sorted = anyM (entry_qualifies icd sno) entries
      rw [anyM_filter_false _ _ sorted hfalse, hfilt 99,
        ← anyM_filter_false _ _ entries hfalse2]
  | null => exact absurd hent (by simp [pyGet])
  | bool b3 => exact absurd hent (by simp [pyGet])
  | num n => exact absurd hent (by simp [pyGet])
  | str s => exact absurd hent (by simp [pyGet])
  | arr xs => exact absurd hent (by simp [pyGet])

/-- Writing a key other than `entry` leaves the qualifying-condition
outcome unchanged. -/
theorem hqc_dictSet_ne (icd sno : List String) (kvs : List (String × Json))
    (k : String) (v : Json) (hk : ("entry" : String) ≠ k) :
    has_qualifying_condition icd sno (.obj (dictSetKV kvs k v)) =
      has_qualifying_condition icd sno (.obj kvs) := by
  simp only [has_qualifying_condition, Option.bind_eq_bind]
  rw [show pyGet (.obj (dictSetKV kvs k v)) "entry" (.arr []) =
      some ((jLookup "entry" (dictSetKV kvs k v)).getD (.arr [])) from rfl,
    jLookup_dictSetKV_ne k "entry" v hk]
  rfl

/-- The whole entry-rewriting pipeline (stub injection, reordering,
transaction conversion, per-entry reference rewriting) does not change
whether the bundle carries a qualifying condition. -/
theorem pipeline_hqc (icd sno : List String) (b t : Json)
    (h : pipeline_transform b = some t) :
    has_qualifying_condition icd sno t = has_qualifying_condition icd sno b := by
  simp only [pipeline_transform, Option.bind_eq_bind, Option.pure_def] at h
  obtain ⟨b1, hinj, h⟩ := Option.bind_eq_some.mp h
  obtain ⟨b2, hre, h⟩ := Option.bind_eq_some.mp h
  obtain ⟨rm, hrm, h⟩ := Option.bind_eq_some.mp h
  obtain ⟨eJ, heJ, h⟩ := Option.bind_eq_some.mp h
  obtain ⟨es, hes, h⟩ := Option.bind_eq_some.mp h
  obtain ⟨rwn, hrwn, h⟩ := Option.bind_eq_some.mp h
  rw [Option.some.injEq] at h
  subst h
  cases b2 with
  | obj kvs2 =>
      rw [show dictSet (dictSet (Json.obj kvs2) "type" (Json.str "transaction")) "entry"
          (Json.arr rwn) =
        dictSet (Json.obj (dictSetKV kvs2 "type" (Json.str "transaction"))) "entry"
          (Json.arr rwn) from rfl]
      have hb4 : pyGet (dictSet (.obj (dictSetKV kvs2 "type" (.str "transaction")))
          "entry" (.arr rwn)) "entry" (.arr []) = some (.arr rwn) := by
        show some _ = some _
        rw [jLookup_dictSetKV_self]
        rfl
      have hstep1 : anyM (entry_qualifies icd sno) rwn =
          anyM (entry_qualifies icd sno) es :=
        anyM_pyMapM _ _ (fun x y hxy => rewrite_entry_qualifies icd sno rm x y hxy)
          es rwn hrwn
      have hstep2 : has_qualifying_condition icd sno
          (.obj (dictSetKV kvs2 "type" (.str "transaction"))) =
          anyM (entry_qualifies icd sno) es := by
        simp only [has_qualifying_condition, Option.bind_eq_bind]
        rw [show pyGet (.obj (dictSetKV kvs2 "type" (.str "transaction"))) "entry"
            (.arr []) =
          pyGet (dictSet (.obj kvs2) "type" (.str "transaction")) "entry" (.arr [])
          from rfl, heJ]
        simp only [Option.some_bind]
        rw [hes]
        simp only [Option.some_bind]
        rfl
      calc has_qualifying_condition icd sno
            (dictSet (.obj (dictSetKV kvs2 "type" (.str "transaction"))) "entry"
              (.arr rwn))
          = anyM (entry_qualifies icd sno) rwn := by
            simp only [has_qualifying_condition, Option.bind_eq_bind, hb4,
              Option.some_bind]
            rw [show pyIter (Json.arr rwn) = some rwn from rfl]
            simp only [Option.some_bind]
            rfl
        _ = anyM (entry_qualifies icd sno) es := hstep1
        _ = has_qualifying_condition icd sno
              (.obj (dictSetKV kvs2 "type" (.str "transaction"))) := hstep2.symm
        _ = has_qualifying_condition icd sno (.obj kvs2) :=
              hqc_dictSet_ne icd sno kvs2 "type" (.str "transaction") (by decide)
        _ = has_qualifying_condition icd sno b1 := reorder_hqc icd sno b1 (.obj kvs2) hre
        _ = has_qualifying_condition icd sno b := inject_hqc icd sno b b1 hinj
  | null => exact absurd heJ (by simp [dictSet, pyGet])
  | bool b3 => exact absurd heJ (by simp [dictSet, pyGet])
  | num n => exact absurd heJ (by simp [dictSet, pyGet])
  | str s => exact absurd heJ (by simp [dictSet, pyGet])
  | arr xs => exact absurd heJ (by simp [dictSet, pyGet])

/-- C2 (confirmed). The business-rule eligibility classification is
decided by the original unmodified bundle: the CHOA/pediatric gate is
evaluated on the original bundle and patient before any transformation
(visible in `process_one`), and although the qualifying-condition check
runs on the transformed bundle, the whole pipeline (stub injection,
reordering, transaction conversion, reference rewriting) provably leaves
its outcome unchanged, so the decision recorded for an uploaded bundle
equals the decision computed on the pre-injection bundle and synthesized
stubs never influence it. -/
theorem C2_eligibility_from_original_data (cfg : LoaderConfig) (st : RunState)
    (bundle : Json) :
    (∀ t, pipeline_transform bundle = some t →
      has_qualifying_condition cfg.qualifying_icd10 cfg.qualifying_snomed t =
        has_qualifying_condition cfg.qualifying_icd10 cfg.qualifying_snomed bundle) ∧
    (∀ q a, (process_one cfg st bundle).2 = .uploaded q a →
      has_qualifying_condition cfg.qualifying_icd10 cfg.qualifying_snomed bundle =
        some q) := by
  refine ⟨fun t ht => pipeline_hqc _ _ bundle t ht, ?_⟩
  intro q a h
  rw [process_one] at h
  cases hp : get_patient_from_bundle bundle with
  | none => rw [hp] at h; simp at h
  | some po =>
    simp only [hp] at h
    cases po with
    | none => simp at h
    | some patient =>
      cases hc : is_choa_patient bundle with
      | none => simp only [hc] at h; simp at h
      | some choa =>
        simp only [hc] at h
        cases hsk : (if choa = true
            then Option.map (fun p => !p) (is_pediatric cfg.today patient)
            else some false) with
        | none => simp only [hsk] at h; simp at h
        | some skip =>
          simp only [hsk] at h
          cases skip with
          | true => simp at h
          | false =>
            simp only [Bool.false_eq_true, if_neg Bool.false_ne_true] at h
            cases hpt : pipeline_transform bundle with
            | none => simp only [hpt] at h; simp at h
            | some tb =>
              simp only [hpt] at h
              cases hsp : split_bundle_entries tb 400 with
              | none => simp only [hsp] at h; simp at h
              | some subs =>
                simp only [hsp] at h
                cases hq : has_qualifying_condition cfg.qualifying_icd10
                    cfg.qualifying_snomed tb with
                | none =>
                  simp only [hq] at h
                  split at h
                  all_goals try split at h
                  all_goals try split at h
                  all_goals try split at h
                  all_goals try split at h
                  all_goals try split at h
                  all_goals
                    first
                      | (replace h : BundleOutcome.errored = .uploaded q a := h
                         exact absurd h (by simp))
                      | (replace h : BundleOutcome.choaSkipped = .uploaded q a := h
                         exact absurd h (by simp))
                      | contradiction
                | some q2 =>
                  simp only [hq] at h
                  have hq2 : q2 = q := by
                    split at h
                    all_goals try split at h
                    all_goals try split at h
                    all_goals try split at h
                    all_goals try split at h
                    all_goals try split at h
                    all_goals
                      first
                        | (replace h : BundleOutcome.uploaded q2 true = .uploaded q a := h
                           injection h with h1 h2 <;> exact h1)
                        | (replace h : BundleOutcome.uploaded q2 false = .uploaded q a := h
                           injection h with h1 h2 <;> exact h1)
                        | (replace h : BundleOutcome.errored = .uploaded q a := h
                           exact absurd h (by simp))
                        | (replace h : BundleOutcome.choaSkipped = .uploaded q a := h
                           exact absurd h (by simp))
                        | contradiction
                  subst hq2
                  rw [← pipeline_hqc cfg.qualifying_icd10 cfg.qualifying_snomed
                    bundle tb hpt]
                  exact hq

/-- A concrete bundle exercising the C2 theorem: a Patient and a
SNOMED-coded qualifying Condition. -/
def bundleC2w : Json :=
  .obj [("entry", .arr [
    .obj [("resource", .obj [("resourceType", .str "Patient"),
                             ("id", .str "p1"),
                             ("birthDate", .str "2015-03-02")])],
    .obj [("resource", .obj [("resourceType", .str "Condition"),
      ("code", .obj [("coding", .arr [.obj
        [("system", .str "http://snomed.info/sct"),
         ("code", .str "73211009")]])])])]])]

/-- A concrete loader configuration for the C2 witness. -/
def cfgC2w : LoaderConfig :=
  { qualifying_icd10 := ["E10"],
    qualifying_snomed := ["73211009"],
    device_count := 5,
    today := ⟨2026, 10, 12⟩,
    submitOk := fun _ => true }

/-- Witness: the C2 theorem applied to the concrete bundle — it is
uploaded with a positive eligibility decision, and that decision holds on
the original bundle. -/
theorem C2_eligibility_from_original_data_witness :
    has_qualifying_condition cfgC2w.qualifying_icd10 cfgC2w.qualifying_snomed
      bundleC2w = some true :=
  (C2_eligibility_from_original_data cfgC2w initialRunState bundleC2w).2 true true rfl
